import Mathlib

/-!
# Cosmic Brains quiz server: a shallow embedding of `server.js`

The Express handlers of `server.js` are rendered as pure functions on an
explicit session store.  Every handler takes the store (the module level
`quizSessions` map) and the request data and returns the new store together
with the HTTP response it sends.

Conventions of the embedding

* JavaScript numbers are IEEE binary64 values.  Counters (`currentQuestion`,
  `score`, array lengths, `Date.now()`) are integers far below `2 ^ 53`, where
  binary64 arithmetic on integers is exact, so they are `Nat` / `Int` here.
  The three places where the source leaves the integers (`score / length * 100`,
  the elapsed time divided by 1000, and `Math.random() * (i + 1)`) go through
  `roundBinary64`, which rounds an exact quotient to the nearest binary64 value.
* `Math.random()` is an input: a handler that draws random numbers receives the
  sequence of values the generator returns during that request.
* `Date.now()` is an input of the handlers that read the clock.
-/

namespace QuizServer

/-! ## Values received in a JSON request body -/

/-- A value found under a key of the parsed JSON body (`req.body.answerIndex`).
`undefined` is the absent key.  A number is a finite binary64 value, identified
with the rational number it denotes; arrays and objects are kept as their JSON
text, since the server only ever compares the value with `===`. -/
inductive JsValue where
  | undefined
  | null
  | bool (b : Bool)
  | number (x : ℚ)
  | string (s : String)
  | structured (text : String)
  deriving DecidableEq, Repr

/-- The comparison `v === n` of a body value with a number `n`: strict equality
never coerces, so only a number with the same value is equal. -/
def JsValue.strictEqNumber (v : JsValue) (n : Int) : Bool :=
  match v with
  | .number x => decide (x = (n : ℚ))
  | _ => false

/-! ## Data model -/

/-- One record of the question bank (`questions` / `questions.json`). -/
structure Question where
  question : String
  answers : List String
  correct : Int
  explanation : Option String := none
  deriving DecidableEq, Repr

/-- One element of `session.answers`, pushed by the answer handler. -/
structure AnswerRecord where
  question : String
  userAnswer : JsValue
  correctAnswer : Int
  isCorrect : Bool
  deriving DecidableEq, Repr

/-- The object stored in `quizSessions` for one quiz attempt. -/
structure Session where
  questions : List Question
  currentQuestion : Nat
  score : Nat
  answers : List AnswerRecord
  startTime : Int
  deriving DecidableEq, Repr

/-! ## The `Map` holding the sessions -/

/-- `Map.prototype.get` on the entry list: the value of the entry with key `k`. -/
def lookup {V : Type} (k : String) : List (String × V) → Option V
  | [] => none
  | (k', v) :: rest => if k' = k then some v else lookup k rest

/-- `Map.prototype.set` on the entry list: an existing key keeps its position and
gets the new value, a new key is appended at the end. -/
def insert {V : Type} (k : String) (v : V) : List (String × V) → List (String × V)
  | [] => [(k, v)]
  | (k', v') :: rest => if k' = k then (k, v) :: rest else (k', v') :: insert k v rest

/-- `Map.prototype.delete` on the entry list. -/
def erase {V : Type} (k : String) : List (String × V) → List (String × V)
  | [] => []
  | (k', v') :: rest => if k' = k then rest else (k', v') :: erase k rest

theorem keys_insert_subset {V : Type} (k : String) (v : V) (l : List (String × V)) (x : String) :
    x ∈ (insert k v l).map Prod.fst → x = k ∨ x ∈ l.map Prod.fst := by
  induction l with
  | nil => simp [insert]
  | cons hd tl ih =>
    obtain ⟨k', v'⟩ := hd
    by_cases h : k' = k
    · simp only [insert, h, if_true, List.map_cons, List.mem_cons]
      intro hx; rcases hx with hx | hx
      · exact Or.inl hx
      · exact Or.inr (Or.inr hx)
    · simp only [insert, h, if_false, List.map_cons, List.mem_cons]
      intro hx; rcases hx with hx | hx
      · exact Or.inr (Or.inl hx)
      · rcases ih hx with h1 | h1
        · exact Or.inl h1
        · exact Or.inr (Or.inr h1)

theorem nodup_insert {V : Type} (k : String) (v : V) (l : List (String × V))
    (h : (l.map Prod.fst).Nodup) : ((insert k v l).map Prod.fst).Nodup := by
  induction l with
  | nil => simp [insert]
  | cons hd tl ih =>
    obtain ⟨k', v'⟩ := hd
    simp only [List.map_cons, List.nodup_cons] at h
    by_cases hk : k' = k
    · subst hk
      simp only [insert, if_true, List.map_cons, List.nodup_cons]
      exact h
    · simp only [insert, hk, if_false, List.map_cons, List.nodup_cons]
      refine ⟨?_, ih h.2⟩
      intro hx
      rcases keys_insert_subset k v tl k' hx with h1 | h1
      · exact hk h1
      · exact h.1 h1

theorem keys_erase_subset {V : Type} (k : String) (l : List (String × V)) (x : String) :
    x ∈ (erase k l).map Prod.fst → x ∈ l.map Prod.fst := by
  induction l with
  | nil => simp [erase]
  | cons hd tl ih =>
    obtain ⟨k', v'⟩ := hd
    by_cases h : k' = k
    · simp only [erase, h, if_true, List.map_cons, List.mem_cons]
      intro hx; exact Or.inr hx
    · simp only [erase, h, if_false, List.map_cons, List.mem_cons]
      intro hx; rcases hx with hx | hx
      · exact Or.inl hx
      · exact Or.inr (ih hx)

theorem nodup_erase {V : Type} (k : String) (l : List (String × V))
    (h : (l.map Prod.fst).Nodup) : ((erase k l).map Prod.fst).Nodup := by
  induction l with
  | nil => simp [erase]
  | cons hd tl ih =>
    obtain ⟨k', v'⟩ := hd
    simp only [List.map_cons, List.nodup_cons] at h
    by_cases hk : k' = k
    · simp only [erase, hk, if_true]
      exact h.2
    · simp only [erase, hk, if_false, List.map_cons, List.nodup_cons]
      exact ⟨fun hx => h.1 (keys_erase_subset k tl k' hx), ih h.2⟩

/-- The module level `quizSessions`: a JavaScript `Map` from session id to
session, that is, an insertion ordered entry list without repeated keys. -/
structure Store where
  entries : List (String × Session)
  nodup : (entries.map Prod.fst).Nodup

namespace Store

/-- The map `new Map()` the process starts with. -/
def empty : Store := ⟨[], by simp⟩

/-- The call `quizSessions.get(sessionId)`. -/
def get (st : Store) (sessionId : String) : Option Session :=
  lookup sessionId st.entries

/-- The call `quizSessions.set(sessionId, session)`.  It also renders the in place
mutation of a stored session object: the entry keeps its key and position and
carries the mutated record. -/
def set (st : Store) (sessionId : String) (s : Session) : Store :=
  ⟨insert sessionId s st.entries, nodup_insert sessionId s st.entries st.nodup⟩

/-- The call `quizSessions.delete(sessionId)`. -/
def delete (st : Store) (sessionId : String) : Store :=
  ⟨erase sessionId st.entries, nodup_erase sessionId st.entries st.nodup⟩

end Store

/-! ## Binary64 arithmetic -/

/-- Halving loop of `floorLog2`; the first argument bounds the number of rounds. -/
def floorLog2Aux : Nat → Nat → Nat
  | 0, _ => 0
  | fuel + 1, n => if n < 2 then 0 else floorLog2Aux fuel (n / 2) + 1

/-- The position of the highest set bit of `n`, that is `floor (log2 n)`, and `0`
for `n = 0`. -/
def floorLog2 (n : Nat) : Nat :=
  floorLog2Aux n n

/-- The binary64 value nearest to the exact quotient `p / q` (round to nearest,
ties to even), which is what `/` and `*` return on binary64 operands whose exact
quotient or product is `p / q`.  The result is the fraction
`(numerator, denominator)` with a power of two as denominator.  The quotient is
scaled so that its integer part `M` has exactly 53 bits, `M` is rounded on the
remainder, and the scaling is undone.  Overflow to `Infinity` and the subnormal
range are outside the model: every call below stays between `2 ^ (-1022)` and
`2 ^ 1024`, or yields a multiple of `2 ^ (-1074)` that needs no rounding at all. -/
def roundBinary64 (p q : Nat) : Nat × Nat :=
  if p = 0 then (0, 1) else
    let a0 := 52 + floorLog2 q
    let b := floorLog2 p
    let a := if p * 2 ^ a0 / (q * 2 ^ b) < 2 ^ 52 then a0 + 1 else a0
    let P := p * 2 ^ a
    let Q := q * 2 ^ b
    let M := P / Q
    let R := P % Q
    let M' := if Q < 2 * R ∨ (2 * R = Q ∧ M % 2 = 1) then M + 1 else M
    (M' * 2 ^ b, 2 ^ a)

/-- The call `Math.round(x)` for a non-negative binary64 `x` given as a fraction:
the integer nearest to `x`, a tie going up, that is `floor (x + 1/2)`. -/
def mathRound (x : Nat × Nat) : Nat :=
  (2 * x.1 + x.2) / (2 * x.2)

/-- The expression `Math.round((session.score / session.questions.length) * 100)`
as it is serialised by `res.json`: with no questions the quotient is `NaN` or
`Infinity`, which JSON renders as `null` (here `none`). -/
def percentage (score length : Nat) : Option Nat :=
  if length = 0 then none else
    let ratio0 := roundBinary64 score length
    let scaled := roundBinary64 (ratio0.1 * 100) ratio0.2
    some (mathRound scaled)

/-- The expression `Math.round((endTime - session.startTime) / 1000)`.  Rounding
to binary64 is symmetric in the sign, and `Math.round` is `floor (x + 1/2)`. -/
def timeTaken (endTime startTime : Int) : Int :=
  let d := endTime - startTime
  let x := roundBinary64 d.natAbs 1000
  let num : Int := if d < 0 then -(x.1 : Int) else (x.1 : Int)
  (2 * num + (x.2 : Int)) / (2 * (x.2 : Int))

/-! ## Random numbers -/

/-- A value `Math.random()` can return: a binary64 number in `[0, 1)`, that is
`mant / 2 ^ scale` with a 53 bit significand and `53 ≤ scale ≤ 1074`. -/
structure UnitDouble where
  mant : Nat
  scale : Nat
  mant_lt : mant < 2 ^ 53
  scale_ge : 53 ≤ scale
  scale_le : scale ≤ 1074

/-- The digit characters `0-9a-z` of radix 36. -/
def digitChar (d : Nat) : Char :=
  if d < 10 then Char.ofNat (48 + d) else Char.ofNat (87 + d)

/-- The radix 36 digits of the fraction `num / den`, most significant first. -/
def fractionDigits36 (den : Nat) : Nat → Nat → List Char
  | 0, _ => []
  | fuel + 1, num =>
    if num = 0 then [] else
      digitChar (num * 36 / den) :: fractionDigits36 den fuel (num * 36 % den)

/-- The call `r.toString(36)` for `r` in `[0, 1)`.  ECMAScript leaves the number
of fraction digits of a non-decimal radix to the engine; the model writes the
exact expansion, which is finite because `r` is dyadic (two bits of the
denominator are used up per digit). -/
def toString36 (r : UnitDouble) : String :=
  if r.mant = 0 then "0"
  else String.mk ('0' :: '.' :: fractionDigits36 (2 ^ r.scale) r.scale r.mant)

/-- The call `s.substr(start, length)` for non-negative arguments. -/
def substr (s : String) (start length : Nat) : String :=
  String.mk ((s.data.drop start).take length)

/-- Source: `function generateSessionId()`, which returns
`Math.random().toString(36).substr(2, 9)`; `r` is the value of `Math.random()`. -/
def generateSessionId (r : UnitDouble) : String :=
  substr (toString36 r) 2 9

/-- The expression `Math.floor(Math.random() * (i + 1))`; `r` is the value of
`Math.random()`. -/
def randomIndex (r : UnitDouble) (i : Nat) : Nat :=
  let x := roundBinary64 (r.mant * (i + 1)) (2 ^ r.scale)
  x.1 / x.2

/-- The destructuring swap `[a[i], a[j]] = [a[j], a[i]]` for indices inside the
array (the shuffle only produces such indices, see `randomIndex_le`). -/
def swap {α : Type} (a : List α) (i j : Nat) : List α :=
  match a[i]?, a[j]? with
  | some x, some y => (a.set i y).set j x
  | _, _ => a

/-- The loop `for (let i = shuffled.length - 1; i > 0; i--)` of `shuffleArray`,
entered with loop index `i`; `random k` is the value of the `k`-th call of
`Math.random()`. -/
def shuffleLoop {α : Type} (random : Nat → UnitDouble) : Nat → Nat → List α → List α
  | 0, _, shuffled => shuffled
  | i + 1, k, shuffled =>
    shuffleLoop random i (k + 1) (swap shuffled (i + 1) (randomIndex (random k) (i + 1)))

/-- Source: `function shuffleArray(array)`.  The copy `[...array]` is the
immutable list itself. -/
def shuffleArray {α : Type} (random : Nat → UnitDouble) (array : List α) : List α :=
  shuffleLoop random (array.length - 1) 0 array

/-- The call `array.slice(0, end)` for an integer `end`: a negative `end` counts
from the end of the array. -/
def slice0 {α : Type} (array : List α) (endIndex : Int) : List α :=
  if endIndex < 0 then array.take (array.length - endIndex.natAbs)
  else array.take endIndex.toNat

/-! ## The shuffle: its variables and its draws -/

/-- The variables of a call of `shuffleArray`: the argument `array` and the local
copy `shuffled`. -/
structure ShuffleVars (α : Type) where
  array : List α
  shuffled : List α

/-- The loop of `shuffleArray` on its variables: each round assigns to two elements
of `shuffled` and to nothing else. -/
def shuffleVarsLoop {α : Type} (random : Nat → UnitDouble) :
    Nat → Nat → ShuffleVars α → ShuffleVars α
  | 0, _, vars => vars
  | i + 1, k, vars =>
    shuffleVarsLoop random i (k + 1)
      { vars with shuffled := swap vars.shuffled (i + 1) (randomIndex (random k) (i + 1)) }

/-- The body of `shuffleArray` on its variables, from the copy
`const shuffled = [...array]` to the `return`: the variables when it returns. -/
def shuffleArrayVars {α : Type} (random : Nat → UnitDouble) (array : List α) :
    ShuffleVars α :=
  shuffleVarsLoop random (array.length - 1) 0 { array := array, shuffled := array }

/-- The loop of `shuffleArray` entered with loop index `i`, when the indices `j` of
its rounds are given as the list `draws` (first round first). -/
def shuffleDraws {α : Type} : Nat → List Nat → List α → List α
  | i + 1, j :: draws, shuffled => shuffleDraws i draws (swap shuffled (i + 1) j)
  | _, _, shuffled => shuffled

/-- The draw sequences of the loop entered with loop index `i`: one index `j` per
round, with `0 ≤ j ≤ i` in the round of loop index `i`. -/
def ValidDraws : Nat → List Nat → Prop
  | 0, draws => draws = []
  | _ + 1, [] => False
  | i + 1, j :: draws => j ≤ i + 1 ∧ ValidDraws i draws

/-- The indices `Math.floor(Math.random() * (i + 1))` of the rounds of the loop
entered with loop index `i`, when `random k` is the next value of
`Math.random()`. -/
def randomDraws (random : Nat → UnitDouble) : Nat → Nat → List Nat
  | 0, _ => []
  | i + 1, k => randomIndex (random k) (i + 1) :: randomDraws random i (k + 1)

/-- All draw sequences of the loop entered with loop index `i`, each once. -/
def allDraws : Nat → List (List Nat)
  | 0 => [[]]
  | i + 1 => (List.range (i + 2)).flatMap (fun j => (allDraws i).map (fun draws => j :: draws))

/-! ## The question bank -/

/-- Source: the built-in array `questions`. -/
def questions : List Question :=
  [ { question := "What is the largest planet in our solar system?",
      answers := ["Earth", "Jupiter", "Saturn", "Neptune"], correct := 1 },
    { question := "Which planet is known as the Red Planet?",
      answers := ["Venus", "Mars", "Jupiter", "Mercury"], correct := 1 },
    { question := "What is the closest star to Earth?",
      answers := ["Alpha Centauri", "Sirius", "The Sun", "Betelgeuse"], correct := 2 },
    { question := "How many moons does Earth have?",
      answers := ["0", "1", "2", "3"], correct := 1 },
    { question := "What is the name of NASA's most famous space telescope?",
      answers := ["Kepler", "Spitzer", "Hubble", "Chandra"], correct := 2 },
    { question := "Which planet has the most moons?",
      answers := ["Jupiter", "Saturn", "Uranus", "Neptune"], correct := 1 },
    { question := "What is the hottest planet in our solar system?",
      answers := ["Mercury", "Venus", "Mars", "Jupiter"], correct := 1 },
    { question := "What does NASA stand for?",
      answers := ["National Air and Space Administration",
                  "National Aeronautics and Space Administration",
                  "North American Space Agency",
                  "National Astronomy and Space Association"], correct := 1 },
    { question := "Which galaxy contains our solar system?",
      answers := ["Andromeda", "Milky Way", "Whirlpool", "Sombrero"], correct := 1 },
    { question := "What is the smallest planet in our solar system?",
      answers := ["Mercury", "Venus", "Mars", "Pluto"], correct := 0 },
    { question := "How long does it take for light from the Sun to reach Earth?",
      answers := ["8 seconds", "8 minutes", "8 hours", "8 days"], correct := 1 },
    { question := "What is the Great Red Spot on Jupiter?",
      answers := ["A moon", "A storm", "A crater", "A mountain"], correct := 1 },
    { question := "Which planet is tilted on its side?",
      answers := ["Mars", "Saturn", "Uranus", "Neptune"], correct := 2 },
    { question := "What is the name of the first artificial satellite?",
      answers := ["Explorer 1", "Sputnik 1", "Vanguard 1", "Luna 1"], correct := 1 },
    { question := "How many astronauts have walked on the Moon?",
      answers := ["6", "8", "10", "12"], correct := 3 } ]

/-- Source: `function loadQuestions()`.  The argument is the parsed content of
`questions.json`, or `none` when reading or parsing it throws. -/
def loadQuestions (file : Option (List Question)) : List Question :=
  match file with
  | some data => data
  | none => questions

/-! ## HTTP responses -/

/-- The JSON document and status a handler sends.  `error status msg` is
`res.status(status).json({ error: msg })`; the other constructors are the
`res.json` bodies of the four routes, sent with status 200. -/
inductive Response where
  | quizStarted (sessionId : String) (totalQuestions : Nat) (message : String)
  | question (questionNumber totalQuestions : Nat) (question : String)
      (answers : List String)
  | answerResult (correct : Bool) (correctAnswer : Int) (explanation : Option String)
  | results (score totalQuestions : Nat) (percentage : Option Nat) (timeTaken : Int)
      (answers : List AnswerRecord)
  | error (status : Nat) (error : String)
  deriving DecidableEq, Repr

/-- The HTTP status code of a response. -/
def Response.status : Response → Nat
  | .error status _ => status
  | _ => 200

/-- The expression `currentQ.explanation || null`: an absent or empty explanation
is falsy and becomes `null`. -/
def orNull (explanation : Option String) : Option String :=
  match explanation with
  | some text => if text = "" then none else some text
  | none => none

/-! ## Route handlers -/

/-- Source: `app.post('/api/start-quiz')`.  `questionCount` is the body field
(`none` when the body omits it, an integer otherwise), `random k` the value of the
`k`-th call of `Math.random()` during the request, `now` the value of
`Date.now()`. -/
def startQuiz (allQuestions : List Question) (st : Store) (questionCount : Option Int)
    (random : Nat → UnitDouble) (now : Int) : Store × Response :=
  let questionCount : Int := questionCount.getD 10
  let sessionId := generateSessionId (random 0)
  let shuffledQuestions := shuffleArray (fun k => random (k + 1)) allQuestions
  let selectedQuestions :=
    slice0 shuffledQuestions (min questionCount (allQuestions.length : Int))
  (st.set sessionId
      { questions := selectedQuestions
        currentQuestion := 0
        score := 0
        answers := []
        startTime := now },
    Response.quizStarted sessionId selectedQuestions.length "Quiz started successfully")

/-- Source: `app.get('/api/question/:sessionId')`. -/
def getQuestion (st : Store) (sessionId : String) : Store × Response :=
  match st.get sessionId with
  | none => (st, Response.error 404 "Session not found")
  | some session =>
    if h : session.questions.length ≤ session.currentQuestion then
      (st, Response.error 400 "Quiz completed")
    else
      have hlt : session.currentQuestion < session.questions.length := Nat.lt_of_not_le h
      let currentQ := session.questions[session.currentQuestion]
      (st, Response.question (session.currentQuestion + 1) session.questions.length
        currentQ.question currentQ.answers)

/-- Source: `app.post('/api/answer/:sessionId')`.  `answerIndex` is the body field
as received.  The three mutations of the session object (`score++`, `answers.push`,
`currentQuestion++`) are applied in source order and the mutated object is the one
the map holds afterwards. -/
def submitAnswer (st : Store) (sessionId : String) (answerIndex : JsValue) :
    Store × Response :=
  match st.get sessionId with
  | none => (st, Response.error 404 "Session not found")
  | some session =>
    if h : session.questions.length ≤ session.currentQuestion then
      (st, Response.error 400 "Quiz already completed")
    else
      have hlt : session.currentQuestion < session.questions.length := Nat.lt_of_not_le h
      let currentQ := session.questions[session.currentQuestion]
      let isCorrect := answerIndex.strictEqNumber currentQ.correct
      let scored : Session :=
        if isCorrect then { session with score := session.score + 1 } else session
      let logged : Session :=
        { scored with
          answers := scored.answers ++
            [{ question := currentQ.question
               userAnswer := answerIndex
               correctAnswer := currentQ.correct
               isCorrect := isCorrect }] }
      let advanced : Session :=
        { logged with currentQuestion := logged.currentQuestion + 1 }
      (st.set sessionId advanced,
        Response.answerResult isCorrect currentQ.correct (orNull currentQ.explanation))

/-- Source: `app.get('/api/results/:sessionId')`; `now` is `Date.now()`. -/
def getResults (st : Store) (sessionId : String) (now : Int) : Store × Response :=
  match st.get sessionId with
  | none => (st, Response.error 404 "Session not found")
  | some session =>
    (st, Response.results session.score session.questions.length
      (percentage session.score session.questions.length)
      (timeTaken now session.startTime) session.answers)

/-- The body of the clean-up loop for one visited entry `[sessionId, session]`:
`if (session.startTime < oneHourAgo) quizSessions.delete(sessionId)`. -/
def cleanUpVisit (oneHourAgo : Int) (m : Store) (entry : String × Session) : Store :=
  if entry.2.startTime < oneHourAgo then m.delete entry.1 else m

/-- Source: the `setInterval` callback that cleans up old sessions; `now` is
`Date.now()`.  The loop visits every entry of the map and deletes the entries whose
session started before `oneHourAgo`. -/
def cleanUpOldSessions (st : Store) (now : Int) : Store :=
  let oneHourAgo := now - 60 * 60 * 1000
  st.entries.foldl (cleanUpVisit oneHourAgo) st

/-! ## The server as a transition system -/

/-- Something that makes the server run code: one of the four API requests, or a
tick of the clean-up timer. -/
inductive Event where
  | startQuiz (questionCount : Option Int) (random : Nat → UnitDouble) (now : Int)
  | getQuestion (sessionId : String)
  | submitAnswer (sessionId : String) (answerIndex : JsValue)
  | getResults (sessionId : String) (now : Int)
  | cleanUp (now : Int)

/-- One event handled on store `st`: the new store and the response sent, if the
event is a request. -/
def step (allQuestions : List Question) (st : Store) : Event → Store × Option Response
  | .startQuiz questionCount random now =>
    let r := startQuiz allQuestions st questionCount random now
    (r.1, some r.2)
  | .getQuestion sessionId =>
    let r := getQuestion st sessionId
    (r.1, some r.2)
  | .submitAnswer sessionId answerIndex =>
    let r := submitAnswer st sessionId answerIndex
    (r.1, some r.2)
  | .getResults sessionId now =>
    let r := getResults st sessionId now
    (r.1, some r.2)
  | .cleanUp now => (cleanUpOldSessions st now, none)

/-- A sequence of events handled one after the other: the final store and the
responses in order. -/
def run (allQuestions : List Question) : Store → List Event → Store × List (Option Response)
  | st, [] => (st, [])
  | st, e :: rest =>
    let r := step allQuestions st e
    let r' := run allQuestions r.1 rest
    (r'.1, r.2 :: r'.2)

/-- The stores the server can be in: the empty map of process start, and every
store obtained from a reachable one by handling one more event. -/
inductive Reachable (allQuestions : List Question) : Store → Prop where
  | init : Reachable allQuestions Store.empty
  | step {st : Store} (e : Event) :
      Reachable allQuestions st → Reachable allQuestions (step allQuestions st e).1

/-- The two read-only requests: `GET /api/question` and `GET /api/results`. -/
def Event.isRead : Event → Bool
  | .getQuestion _ => true
  | .getResults _ _ => true
  | _ => false

/-! ## Bookkeeping on runs -/

/-- The session id a `start-quiz` event stores its new session under. -/
def Event.createdId : Event → Option String
  | .startQuiz _ random _ => some (generateSessionId (random 0))
  | _ => none

/-- Whether an event and its response are an accepted (status 200) `submitAnswer`
on session `sid`. -/
def isAcceptedAnswer (sid : String) : Event → Option Response → Bool
  | .submitAnswer sid0 _, some r => decide (sid0 = sid) && decide (r.status = 200)
  | _, _ => false

/-- Whether an event and its response are a `submitAnswer` on session `sid` that
was answered with `correct == true`. -/
def isCorrectAnswer (sid : String) : Event → Option Response → Bool
  | .submitAnswer sid0 _, some (.answerResult true _ _) => decide (sid0 = sid)
  | _, _ => false

/-- The number of accepted `submitAnswer` calls on `sid` in a run, given its events
and their responses. -/
def acceptedAnswers (sid : String) : List Event → List (Option Response) → Nat
  | e :: es, r :: rs => (if isAcceptedAnswer sid e r then 1 else 0) + acceptedAnswers sid es rs
  | _, _ => 0

/-- The number of `submitAnswer` responses with `correct == true` on `sid` in a
run, given its events and their responses. -/
def correctAnswers (sid : String) : List Event → List (Option Response) → Nat
  | e :: es, r :: rs => (if isCorrectAnswer sid e r then 1 else 0) + correctAnswers sid es rs
  | _, _ => 0

/-! ## Notions of the specification -/

/-- The session object after an accepted answer `a` to its current question `q`. -/
def Session.answered (s : Session) (q : Question) (a : JsValue) : Session :=
  { questions := s.questions
    currentQuestion := s.currentQuestion + 1
    score := if a.strictEqNumber q.correct then s.score + 1 else s.score
    answers := s.answers ++
      [{ question := q.question
         userAnswer := a
         correctAnswer := q.correct
         isCorrect := a.strictEqNumber q.correct }]
    startTime := s.startTime }

/-- The validity of a submitted answer index in the sense of the specification: a
non-negative integer smaller than the option count of the current question. -/
def isValidAnswerIndex (a : JsValue) (optionCount : Nat) : Prop :=
  ∃ k : Nat, k < optionCount ∧ a = JsValue.number (k : ℚ)

/-- The percentage of the specification: `100 * score / total` rounded to the
nearest integer, halves up, in exact arithmetic (`total` positive). -/
def exactPercentage (score total : Nat) : Nat :=
  (2 * (100 * score) + total) / (2 * total)

/-! ## Sample values -/

/-- The value `0.5` of `Math.random()`. -/
def half : UnitDouble := ⟨2 ^ 52, 53, by decide, by decide, by decide⟩

/-- The store after one `start-quiz` request for three questions on the built-in
bank, at time 1000, when every `Math.random()` call returns `0.5`.  The session id
is `"i"`, since `(0.5).toString(36)` is `"0.i"`. -/
def demoStore : Store :=
  (startQuiz questions Store.empty (some 3) (fun _ => half) 1000).1

/-- The session held by `demoStore`. -/
def demoSession : Session :=
  { questions :=
      [ { question := "What is the largest planet in our solar system?",
          answers := ["Earth", "Jupiter", "Saturn", "Neptune"], correct := 1 },
        { question := "What is the smallest planet in our solar system?",
          answers := ["Mercury", "Venus", "Mars", "Pluto"], correct := 0 },
        { question := "Which planet is known as the Red Planet?",
          answers := ["Venus", "Mars", "Jupiter", "Mercury"], correct := 1 } ]
    currentQuestion := 0
    score := 0
    answers := []
    startTime := 1000 }

/-- Three answers on the session `"i"`, each choosing option 1. -/
def demoAnswers : List Event :=
  [Event.submitAnswer "i" (JsValue.number 1), Event.submitAnswer "i" (JsValue.number 1),
    Event.submitAnswer "i" (JsValue.number 1)]

/-- The session of `demoStore` after `demoAnswers`: option 1 is right for the first
and third question and wrong for the second. -/
def demoFinalSession : Session :=
  { demoSession with
    currentQuestion := 3
    score := 2
    answers :=
      [ { question := "What is the largest planet in our solar system?",
          userAnswer := JsValue.number 1, correctAnswer := 1, isCorrect := true },
        { question := "What is the smallest planet in our solar system?",
          userAnswer := JsValue.number 1, correctAnswer := 0, isCorrect := false },
        { question := "Which planet is known as the Red Planet?",
          userAnswer := JsValue.number 1, correctAnswer := 1, isCorrect := true } ] }

/-- A question bank of 40 distinct questions, as a `questions.json` may hold; every
question has option 1 as the correct one. -/
def bank40 : List Question :=
  (List.range 40).map fun i =>
    { question := String.mk (List.replicate (i + 1) '?'),
      answers := ["A", "B", "C", "D"], correct := 1 }

/-- A quiz on all 40 questions of `bank40` (every `Math.random()` call returns
0.5, so the session id is `"i"`), followed by 23 correct answers. -/
def quiz40 : List Event :=
  Event.startQuiz (some 40) (fun _ => half) 0
    :: List.replicate 23 (Event.submitAnswer "i" (JsValue.number 1))

set_option maxRecDepth 100000

/-! ## Lemmas on the session map -/

theorem lookup_insert_self {V : Type} (k : String) (v : V) (l : List (String × V)) :
    lookup k (insert k v l) = some v := by
  induction l with
  | nil => simp [insert, lookup]
  | cons hd tl ih =>
    obtain ⟨k', v'⟩ := hd
    by_cases h : k' = k
    · simp [insert, lookup, h]
    · simp [insert, lookup, h, ih]

theorem lookup_insert_ne {V : Type} (k k' : String) (v : V) (l : List (String × V))
    (hne : k' ≠ k) : lookup k' (insert k v l) = lookup k' l := by
  induction l with
  | nil => simp [insert, lookup, Ne.symm hne]
  | cons hd tl ih =>
    obtain ⟨k0, v0⟩ := hd
    by_cases h : k0 = k
    · subst h
      simp [insert, lookup, Ne.symm hne]
    · by_cases h2 : k0 = k'
      · subst h2
        simp [insert, lookup, h]
      · simp [insert, lookup, h, h2, ih]

theorem lookup_eq_none_of_not_mem {V : Type} (k : String) (l : List (String × V))
    (h : k ∉ l.map Prod.fst) : lookup k l = none := by
  induction l with
  | nil => rfl
  | cons hd tl ih =>
    obtain ⟨k0, v0⟩ := hd
    simp only [List.map_cons, List.mem_cons, not_or] at h
    simp [lookup, Ne.symm h.1, ih h.2]

theorem lookup_erase_ne {V : Type} (k k' : String) (l : List (String × V))
    (hne : k' ≠ k) : lookup k' (erase k l) = lookup k' l := by
  induction l with
  | nil => rfl
  | cons hd tl ih =>
    obtain ⟨k0, v0⟩ := hd
    by_cases h : k0 = k
    · subst h
      simp [erase, lookup, Ne.symm hne]
    · by_cases h2 : k0 = k'
      · subst h2
        simp [erase, lookup, h]
      · simp [erase, lookup, h, h2, ih]

theorem lookup_erase_self {V : Type} (k : String) (l : List (String × V))
    (hnd : (l.map Prod.fst).Nodup) : lookup k (erase k l) = none := by
  induction l with
  | nil => rfl
  | cons hd tl ih =>
    obtain ⟨k0, v0⟩ := hd
    simp only [List.map_cons, List.nodup_cons] at hnd
    by_cases h : k0 = k
    · subst h
      simp only [erase, if_true]
      exact lookup_eq_none_of_not_mem k0 tl hnd.1
    · simp [erase, lookup, h, ih hnd.2]

theorem lookup_some_iff_mem {V : Type} (k : String) (v : V) (l : List (String × V))
    (hnd : (l.map Prod.fst).Nodup) : lookup k l = some v ↔ (k, v) ∈ l := by
  induction l with
  | nil => simp [lookup]
  | cons hd tl ih =>
    obtain ⟨k0, v0⟩ := hd
    simp only [List.map_cons, List.nodup_cons] at hnd
    by_cases h : k0 = k
    · subst h
      simp only [lookup, if_true, Option.some.injEq, List.mem_cons, Prod.mk.injEq, true_and]
      constructor
      · intro hv; exact Or.inl hv.symm
      · intro hv
        rcases hv with hv | hv
        · exact hv.symm
        · exact absurd (List.mem_map_of_mem Prod.fst hv) hnd.1
    · simp only [lookup, h, if_false, List.mem_cons, Prod.mk.injEq]
      rw [ih hnd.2]
      constructor
      · intro hv; exact Or.inr hv
      · intro hv
        rcases hv with hv | hv
        · exact absurd hv.1.symm h
        · exact hv

theorem erase_eq_filter {V : Type} (k : String) (l : List (String × V))
    (hnd : (l.map Prod.fst).Nodup) :
    erase k l = l.filter (fun e => decide (e.1 ≠ k)) := by
  induction l with
  | nil => rfl
  | cons hd tl ih =>
    obtain ⟨k0, v0⟩ := hd
    simp only [List.map_cons, List.nodup_cons] at hnd
    by_cases h : k0 = k
    · subst h
      simp only [erase, if_true, ne_eq, not_true_eq_false, decide_False, Bool.false_eq_true,
        not_false_eq_true, List.filter_cons_of_neg]
      symm
      rw [List.filter_eq_self]
      intro e he
      have : e.1 ≠ k0 := fun heq => hnd.1 (heq ▸ List.mem_map_of_mem Prod.fst he)
      simp [this]
    · simp [erase, h, ih hnd.2]

theorem lookup_filter {V : Type} (k : String) (p : String × V → Bool)
    (l : List (String × V)) (hnd : (l.map Prod.fst).Nodup) :
    lookup k (l.filter p) =
      match lookup k l with
      | some v => if p (k, v) then some v else none
      | none => none := by
  induction l with
  | nil => rfl
  | cons hd tl ih =>
    obtain ⟨k0, v0⟩ := hd
    simp only [List.map_cons, List.nodup_cons] at hnd
    by_cases h : k0 = k
    · subst h
      by_cases hp : p (k0, v0) = true
      · simp [List.filter_cons, hp, lookup]
      · have hnone : lookup k0 (tl.filter p) = none := by
          apply lookup_eq_none_of_not_mem
          intro hmem
          rcases List.mem_map.1 hmem with ⟨e, he, hk⟩
          exact hnd.1 (hk ▸ List.mem_map_of_mem Prod.fst (List.mem_of_mem_filter he))
        simp [List.filter_cons, hp, lookup, hnone]
    · by_cases hp : p (k0, v0) = true
      · simp [List.filter_cons, hp, lookup, h, ih hnd.2]
      · simp [List.filter_cons, hp, lookup, h, ih hnd.2]

theorem mem_unique_of_nodup {V : Type} (l : List (String × V)) (hnd : (l.map Prod.fst).Nodup)
    (k : String) (v v' : V) (h : (k, v) ∈ l) (h' : (k, v') ∈ l) : v = v' := by
  have h1 := (lookup_some_iff_mem k v l hnd).2 h
  have h2 := (lookup_some_iff_mem k v' l hnd).2 h'
  rw [h1] at h2
  exact Option.some.inj h2

namespace Store

theorem ext_entries {st st' : Store} (h : st.entries = st'.entries) : st = st' := by
  cases st; cases st'; cases h; rfl

@[simp] theorem get_empty (k : String) : Store.empty.get k = none := rfl

@[simp] theorem get_set_self (st : Store) (k : String) (s : Session) :
    (st.set k s).get k = some s :=
  lookup_insert_self k s st.entries

theorem get_set_ne (st : Store) (k k' : String) (s : Session) (hne : k' ≠ k) :
    (st.set k s).get k' = st.get k' :=
  lookup_insert_ne k k' s st.entries hne

theorem get_set (st : Store) (k k' : String) (s : Session) :
    (st.set k s).get k' = if k' = k then some s else st.get k' := by
  by_cases h : k' = k
  · subst h; simp
  · simp [h, get_set_ne st k k' s h]

theorem get_delete (st : Store) (k k' : String) :
    (st.delete k).get k' = if k' = k then none else st.get k' := by
  by_cases h : k' = k
  · subst h
    simp only [if_true]
    exact lookup_erase_self k' st.entries st.nodup
  · simp only [h, if_false]
    exact lookup_erase_ne k k' st.entries h

theorem get_some_iff_mem (st : Store) (k : String) (s : Session) :
    st.get k = some s ↔ (k, s) ∈ st.entries :=
  lookup_some_iff_mem k s st.entries st.nodup

end Store

/-! ## The handlers case by case -/

theorem getQuestion_fst (st : Store) (sid : String) : (getQuestion st sid).1 = st := by
  unfold getQuestion
  split
  · rfl
  · split <;> rfl

theorem getQuestion_none {st : Store} {sid : String} (h : st.get sid = none) :
    getQuestion st sid = (st, Response.error 404 "Session not found") := by
  unfold getQuestion
  rw [h]

theorem getQuestion_done {st : Store} {sid : String} {s : Session}
    (h : st.get sid = some s) (hc : s.questions.length ≤ s.currentQuestion) :
    getQuestion st sid = (st, Response.error 400 "Quiz completed") := by
  unfold getQuestion
  rw [h]
  simp only [dif_pos hc]

theorem getQuestion_open {st : Store} {sid : String} {s : Session}
    (h : st.get sid = some s) (hlt : s.currentQuestion < s.questions.length) :
    getQuestion st sid =
      (st, Response.question (s.currentQuestion + 1) s.questions.length
        s.questions[s.currentQuestion].question s.questions[s.currentQuestion].answers) := by
  unfold getQuestion
  rw [h]
  simp only [dif_neg (Nat.not_le_of_lt hlt)]

theorem submitAnswer_none {st : Store} {sid : String} (a : JsValue)
    (h : st.get sid = none) :
    submitAnswer st sid a = (st, Response.error 404 "Session not found") := by
  unfold submitAnswer
  rw [h]

theorem submitAnswer_done {st : Store} {sid : String} {s : Session} (a : JsValue)
    (h : st.get sid = some s) (hc : s.questions.length ≤ s.currentQuestion) :
    submitAnswer st sid a = (st, Response.error 400 "Quiz already completed") := by
  unfold submitAnswer
  rw [h]
  simp only [dif_pos hc]

theorem submitAnswer_open {st : Store} {sid : String} {s : Session} (a : JsValue)
    (h : st.get sid = some s) (hlt : s.currentQuestion < s.questions.length) :
    submitAnswer st sid a =
      (st.set sid (s.answered s.questions[s.currentQuestion] a),
        Response.answerResult (a.strictEqNumber s.questions[s.currentQuestion].correct)
          s.questions[s.currentQuestion].correct
          (orNull s.questions[s.currentQuestion].explanation)) := by
  unfold submitAnswer
  rw [h]
  simp only [dif_neg (Nat.not_le_of_lt hlt)]
  refine Prod.ext ?_ rfl
  simp only [Session.answered]
  congr 1
  by_cases hc : a.strictEqNumber s.questions[s.currentQuestion].correct = true
  · simp [hc]
  · simp [hc]

theorem getResults_fst (st : Store) (sid : String) (now : Int) :
    (getResults st sid now).1 = st := by
  unfold getResults
  split <;> rfl

theorem getResults_none {st : Store} {sid : String} (now : Int) (h : st.get sid = none) :
    getResults st sid now = (st, Response.error 404 "Session not found") := by
  unfold getResults
  rw [h]

theorem getResults_some {st : Store} {sid : String} {s : Session} (now : Int)
    (h : st.get sid = some s) :
    getResults st sid now =
      (st, Response.results s.score s.questions.length
        (percentage s.score s.questions.length) (timeTaken now s.startTime) s.answers) := by
  unfold getResults
  rw [h]

theorem strictEqNumber_self (n : Int) : (JsValue.number (n : ℚ)).strictEqNumber n = true := by
  simp [JsValue.strictEqNumber]

theorem strictEqNumber_nat_ne (k : Nat) (n : Int) (h : (k : Int) ≠ n) :
    (JsValue.number (k : ℚ)).strictEqNumber n = false := by
  simp only [JsValue.strictEqNumber, decide_eq_false_iff_not]
  intro hq
  apply h
  have : ((k : Int) : ℚ) = (n : ℚ) := by simpa using hq
  exact_mod_cast this

theorem not_isValidAnswerIndex_neg_one (n : Nat) :
    ¬ isValidAnswerIndex (JsValue.number (-1)) n := by
  rintro ⟨k, _, hk⟩
  injection hk with hk
  have h0 : (0 : ℚ) ≤ (k : ℚ) := Nat.cast_nonneg k
  rw [← hk] at h0
  norm_num at h0

theorem get_startQuiz_self (bank : List Question) (st : Store) (qc : Option Int)
    (random : Nat → UnitDouble) (now : Int) :
    ∃ s : Session,
      (startQuiz bank st qc random now).1.get (generateSessionId (random 0)) = some s
        ∧ s.currentQuestion = 0 ∧ s.score = 0 ∧ s.answers = [] ∧ s.startTime = now
        ∧ (startQuiz bank st qc random now).2
            = Response.quizStarted (generateSessionId (random 0)) s.questions.length
                "Quiz started successfully" :=
  ⟨_, Store.get_set_self _ _ _, rfl, rfl, rfl, rfl, rfl⟩

/-! ## Binary64 rounding -/

theorem floorLog2Aux_eq (fuel n : Nat) (h : n ≤ fuel) : floorLog2Aux fuel n = Nat.log2 n := by
  induction fuel generalizing n with
  | zero =>
    have h0 : n = 0 := by omega
    subst h0
    rw [floorLog2Aux, Nat.log2_zero]
  | succ f ih =>
    rw [floorLog2Aux, Nat.log2]
    by_cases h2 : n < 2
    · rw [if_pos h2, if_neg (by omega)]
    · rw [if_neg h2, if_pos (by omega), ih (n / 2) (by omega)]

theorem floorLog2_eq (n : Nat) : floorLog2 n = Nat.log2 n :=
  floorLog2Aux_eq n n (Nat.le_refl n)

theorem two_pow_floorLog2_le (n : Nat) (h : n ≠ 0) : 2 ^ floorLog2 n ≤ n := by
  rw [floorLog2_eq]
  exact Nat.log2_self_le h

theorem lt_two_pow_floorLog2 (n : Nat) : n < 2 ^ (floorLog2 n + 1) := by
  rw [floorLog2_eq]
  exact Nat.lt_log2_self

/-- The rounding step of `roundBinary64` cannot reach `n` when the exact quotient is
at most `n * (1 - 2 ^ (-53))` and the scaled quotient has at least 53 bits. -/
theorem round_step_lt (p q a b n : Nat) (hq : 0 < q) (hn : 0 < n)
    (hM : 2 ^ 52 ≤ p * 2 ^ a / (q * 2 ^ b))
    (hp : p * 2 ^ 53 ≤ (2 ^ 53 - 1) * (q * n)) :
    (if q * 2 ^ b < 2 * (p * 2 ^ a % (q * 2 ^ b))
          ∨ (2 * (p * 2 ^ a % (q * 2 ^ b)) = q * 2 ^ b ∧ p * 2 ^ a / (q * 2 ^ b) % 2 = 1)
        then p * 2 ^ a / (q * 2 ^ b) + 1 else p * 2 ^ a / (q * 2 ^ b)) * 2 ^ b / 2 ^ a < n := by
  have hb : 0 < 2 ^ b := Nat.two_pow_pos _
  have ha : 0 < 2 ^ a := Nat.two_pow_pos _
  have hQ : 0 < q * 2 ^ b := Nat.mul_pos hq hb
  have hdm : q * 2 ^ b * (p * 2 ^ a / (q * 2 ^ b)) + p * 2 ^ a % (q * 2 ^ b) = p * 2 ^ a :=
    Nat.div_add_mod _ _
  have hR : p * 2 ^ a % (q * 2 ^ b) < q * 2 ^ b := Nat.mod_lt _ hQ
  have hMQ : 2 ^ 52 * (q * 2 ^ b) ≤ q * 2 ^ b * (p * 2 ^ a / (q * 2 ^ b)) := by
    rw [Nat.mul_comm (q * 2 ^ b)]
    exact Nat.mul_le_mul_right _ hM
  have hT : 0 < n * 2 ^ a * q := Nat.mul_pos (Nat.mul_pos hn ha) hq
  have hPT : p * 2 ^ a * 2 ^ 53 ≤ (2 ^ 53 - 1) * (n * 2 ^ a * q) := by
    calc p * 2 ^ a * 2 ^ 53 = p * 2 ^ 53 * 2 ^ a := by ring
      _ ≤ (2 ^ 53 - 1) * (q * n) * 2 ^ a := Nat.mul_le_mul_right _ hp
      _ = (2 ^ 53 - 1) * (n * 2 ^ a * q) := by ring
  rw [Nat.div_lt_iff_lt_mul ha]
  suffices hkey :
      (if q * 2 ^ b < 2 * (p * 2 ^ a % (q * 2 ^ b))
          ∨ (2 * (p * 2 ^ a % (q * 2 ^ b)) = q * 2 ^ b ∧ p * 2 ^ a / (q * 2 ^ b) % 2 = 1)
        then p * 2 ^ a / (q * 2 ^ b) + 1 else p * 2 ^ a / (q * 2 ^ b)) * (q * 2 ^ b)
        < n * 2 ^ a * q by
    have h2 : ∀ M' : Nat, M' * (q * 2 ^ b) < n * 2 ^ a * q → M' * 2 ^ b < n * 2 ^ a := by
      intro M' h
      have h3 : M' * 2 ^ b * q < n * 2 ^ a * q := by
        calc M' * 2 ^ b * q = M' * (q * 2 ^ b) := by ring
          _ < n * 2 ^ a * q := h
      exact Nat.lt_of_mul_lt_mul_right h3
    exact h2 _ hkey
  generalize hQe : q * 2 ^ b = Q at *
  generalize hPe : p * 2 ^ a = P at *
  generalize hMe : P / Q = M at *
  generalize hRe : P % Q = R at *
  generalize hTe : n * 2 ^ a * q = T at *
  generalize hXe : Q * M = X at *
  split
  · rename_i hup
    have hge : Q ≤ 2 * R := by
      rcases hup with h | h
      · omega
      · omega
    have : (M + 1) * Q = X + Q := by rw [← hXe]; ring
    rw [this]
    norm_num at hPT hMQ ⊢
    omega
  · have : M * Q = X := by rw [← hXe]; ring
    rw [this]
    norm_num at hPT ⊢
    omega
theorem roundBinary64_lt (p q n : Nat) (hq : 0 < q) (hn : 0 < n)
    (hp : p * 2 ^ 53 ≤ (2 ^ 53 - 1) * (q * n)) :
    (roundBinary64 p q).1 / (roundBinary64 p q).2 < n := by
  unfold roundBinary64
  by_cases h0 : p = 0
  · rw [if_pos h0]
    simpa using hn
  · rw [if_neg h0]
    dsimp only
    have hplo := two_pow_floorLog2_le p h0
    have hqhi := lt_two_pow_floorLog2 q
    by_cases hs : p * 2 ^ (52 + floorLog2 q) / (q * 2 ^ floorLog2 p) < 2 ^ 52
    · rw [if_pos hs]
      apply round_step_lt p q _ _ n hq hn _ hp
      rw [Nat.le_div_iff_mul_le (Nat.mul_pos hq (Nat.two_pow_pos _))]
      calc 2 ^ 52 * (q * 2 ^ floorLog2 p)
          ≤ 2 ^ 52 * (2 ^ (floorLog2 q + 1) * p) :=
            Nat.mul_le_mul_left _ (Nat.mul_le_mul (Nat.le_of_lt hqhi) hplo)
        _ = p * 2 ^ (52 + floorLog2 q + 1) := by ring
    · rw [if_neg hs]
      exact round_step_lt p q _ _ n hq hn (Nat.le_of_not_lt hs) hp

/-- The index drawn by the shuffle lies inside the not yet fixed part of the
array: `Math.floor(Math.random() * (i + 1))` is at most `i`. -/
theorem randomIndex_le (r : UnitDouble) (i : Nat) : randomIndex r i ≤ i := by
  have h : randomIndex r i < i + 1 := by
    unfold randomIndex
    apply roundBinary64_lt _ _ _ (Nat.two_pow_pos _) (Nat.succ_pos i)
    have hm : r.mant ≤ 2 ^ 53 - 1 := Nat.le_pred_of_lt r.mant_lt
    have hs : 2 ^ 53 ≤ 2 ^ r.scale := Nat.pow_le_pow_right (by decide) r.scale_ge
    calc r.mant * (i + 1) * 2 ^ 53 = r.mant * 2 ^ 53 * (i + 1) := by ring
      _ ≤ (2 ^ 53 - 1) * 2 ^ r.scale * (i + 1) :=
          Nat.mul_le_mul_right _ (Nat.mul_le_mul hm hs)
      _ = (2 ^ 53 - 1) * (2 ^ r.scale * (i + 1)) := by ring
  omega
theorem round_step_nearest (P Q : Nat) (hQ : 0 < Q) :
    2 * P ≤ 2 * ((if Q < 2 * (P % Q) ∨ (2 * (P % Q) = Q ∧ P / Q % 2 = 1)
          then P / Q + 1 else P / Q) * Q) + Q
      ∧ 2 * ((if Q < 2 * (P % Q) ∨ (2 * (P % Q) = Q ∧ P / Q % 2 = 1)
          then P / Q + 1 else P / Q) * Q) ≤ 2 * P + Q
      ∧ ((2 * P = 2 * ((if Q < 2 * (P % Q) ∨ (2 * (P % Q) = Q ∧ P / Q % 2 = 1)
            then P / Q + 1 else P / Q) * Q) + Q
          ∨ 2 * ((if Q < 2 * (P % Q) ∨ (2 * (P % Q) = Q ∧ P / Q % 2 = 1)
            then P / Q + 1 else P / Q) * Q) = 2 * P + Q) →
        (if Q < 2 * (P % Q) ∨ (2 * (P % Q) = Q ∧ P / Q % 2 = 1)
          then P / Q + 1 else P / Q) % 2 = 0) := by
  have hdm : Q * (P / Q) + P % Q = P := Nat.div_add_mod _ _
  have hR : P % Q < Q := Nat.mod_lt _ hQ
  generalize hMe : P / Q = M at *
  generalize hRe : P % Q = R at *
  generalize hXe : Q * M = X at *
  split
  · rename_i hup
    have hx : (M + 1) * Q = X + Q := by rw [← hXe]; ring
    rw [hx]
    rcases hup with h | h
    · refine ⟨by omega, by omega, ?_⟩
      intro ht; omega
    · refine ⟨by omega, by omega, ?_⟩
      intro _; omega
  · rename_i hdown
    have hx : M * Q = X := by rw [← hXe]; ring
    rw [hx]
    have h1 : ¬ Q < 2 * R := fun h => hdown (Or.inl h)
    have h2 : 2 * R = Q → M % 2 = 0 := by
      intro h
      by_contra hodd
      exact hdown (Or.inr ⟨h, by omega⟩)
    refine ⟨by omega, by omega, ?_⟩
    intro ht
    apply h2
    omega

/-- Correct rounding of `roundBinary64`: for a positive quotient `p / q` the result
is `M * 2 ^ b / 2 ^ a` with a significand `2 ^ 52 ≤ M ≤ 2 ^ 53`, it differs from
`p / q` by at most half a unit `2 ^ b / 2 ^ a` of the last place, and in a tie `M` is
even. -/
theorem roundBinary64_nearest (p q : Nat) (hp : p ≠ 0) (hq : 0 < q) :
    ∃ M a b : Nat, roundBinary64 p q = (M * 2 ^ b, 2 ^ a)
      ∧ 2 ^ 52 ≤ M ∧ M ≤ 2 ^ 53
      ∧ 2 * (p * 2 ^ a) ≤ 2 * (M * (q * 2 ^ b)) + q * 2 ^ b
      ∧ 2 * (M * (q * 2 ^ b)) ≤ 2 * (p * 2 ^ a) + q * 2 ^ b
      ∧ ((2 * (p * 2 ^ a) = 2 * (M * (q * 2 ^ b)) + q * 2 ^ b
          ∨ 2 * (M * (q * 2 ^ b)) = 2 * (p * 2 ^ a) + q * 2 ^ b) → M % 2 = 0) := by
  have hplo := two_pow_floorLog2_le p hp
  have hphi := lt_two_pow_floorLog2 p
  have hqlo := two_pow_floorLog2_le q (Nat.pos_iff_ne_zero.1 hq)
  have hqhi := lt_two_pow_floorLog2 q
  have hQ : 0 < q * 2 ^ floorLog2 p := Nat.mul_pos hq (Nat.two_pow_pos _)
  -- the scaled quotient has exactly 53 bits
  have hbits : ∀ a : Nat,
      (a = if p * 2 ^ (52 + floorLog2 q) / (q * 2 ^ floorLog2 p) < 2 ^ 52
        then 52 + floorLog2 q + 1 else 52 + floorLog2 q) →
      2 ^ 52 ≤ p * 2 ^ a / (q * 2 ^ floorLog2 p)
        ∧ p * 2 ^ a / (q * 2 ^ floorLog2 p) < 2 ^ 53 := by
    intro a ha
    by_cases hs : p * 2 ^ (52 + floorLog2 q) / (q * 2 ^ floorLog2 p) < 2 ^ 52
    · rw [if_pos hs] at ha
      subst ha
      constructor
      · rw [Nat.le_div_iff_mul_le hQ]
        calc 2 ^ 52 * (q * 2 ^ floorLog2 p)
            ≤ 2 ^ 52 * (2 ^ (floorLog2 q + 1) * p) :=
              Nat.mul_le_mul_left _ (Nat.mul_le_mul (Nat.le_of_lt hqhi) hplo)
          _ = p * 2 ^ (52 + floorLog2 q + 1) := by ring
      · rw [Nat.div_lt_iff_lt_mul hQ] at hs ⊢
        calc p * 2 ^ (52 + floorLog2 q + 1) = 2 * (p * 2 ^ (52 + floorLog2 q)) := by ring
          _ < 2 * (2 ^ 52 * (q * 2 ^ floorLog2 p)) := by omega
          _ = 2 ^ 53 * (q * 2 ^ floorLog2 p) := by ring
    · rw [if_neg hs] at ha
      subst ha
      refine ⟨Nat.le_of_not_lt hs, ?_⟩
      rw [Nat.div_lt_iff_lt_mul hQ]
      calc p * 2 ^ (52 + floorLog2 q)
          < 2 ^ (floorLog2 p + 1) * 2 ^ (52 + floorLog2 q) :=
            Nat.mul_lt_mul_of_pos_right hphi (Nat.two_pow_pos _)
        _ = 2 ^ 53 * (2 ^ floorLog2 q * 2 ^ floorLog2 p) := by ring
        _ ≤ 2 ^ 53 * (q * 2 ^ floorLog2 p) :=
            Nat.mul_le_mul_left _ (Nat.mul_le_mul_right _ hqlo)
  obtain ⟨hlo, hhi⟩ := hbits _ rfl
  have hnear := round_step_nearest
    (p * 2 ^ (if p * 2 ^ (52 + floorLog2 q) / (q * 2 ^ floorLog2 p) < 2 ^ 52
        then 52 + floorLog2 q + 1 else 52 + floorLog2 q))
    (q * 2 ^ floorLog2 p) hQ
  have hdef : roundBinary64 p q
      = ((if q * 2 ^ floorLog2 p
              < 2 * (p * 2 ^ (if p * 2 ^ (52 + floorLog2 q) / (q * 2 ^ floorLog2 p) < 2 ^ 52
                  then 52 + floorLog2 q + 1 else 52 + floorLog2 q) % (q * 2 ^ floorLog2 p))
            ∨ (2 * (p * 2 ^ (if p * 2 ^ (52 + floorLog2 q) / (q * 2 ^ floorLog2 p) < 2 ^ 52
                  then 52 + floorLog2 q + 1 else 52 + floorLog2 q) % (q * 2 ^ floorLog2 p))
                = q * 2 ^ floorLog2 p
              ∧ p * 2 ^ (if p * 2 ^ (52 + floorLog2 q) / (q * 2 ^ floorLog2 p) < 2 ^ 52
                  then 52 + floorLog2 q + 1 else 52 + floorLog2 q) / (q * 2 ^ floorLog2 p) % 2
                = 1)
          then p * 2 ^ (if p * 2 ^ (52 + floorLog2 q) / (q * 2 ^ floorLog2 p) < 2 ^ 52
                  then 52 + floorLog2 q + 1 else 52 + floorLog2 q) / (q * 2 ^ floorLog2 p) + 1
          else p * 2 ^ (if p * 2 ^ (52 + floorLog2 q) / (q * 2 ^ floorLog2 p) < 2 ^ 52
                  then 52 + floorLog2 q + 1 else 52 + floorLog2 q) / (q * 2 ^ floorLog2 p))
          * 2 ^ floorLog2 p,
        2 ^ (if p * 2 ^ (52 + floorLog2 q) / (q * 2 ^ floorLog2 p) < 2 ^ 52
                  then 52 + floorLog2 q + 1 else 52 + floorLog2 q)) := by
    unfold roundBinary64
    rw [if_neg hp]
  generalize (if p * 2 ^ (52 + floorLog2 q) / (q * 2 ^ floorLog2 p) < 2 ^ 52
      then 52 + floorLog2 q + 1 else 52 + floorLog2 q) = a at hlo hhi hnear hdef
  generalize p * 2 ^ a / (q * 2 ^ floorLog2 p) = M at hlo hhi hnear hdef
  refine ⟨_, a, floorLog2 p, hdef, ?_, ?_, hnear.1, hnear.2.1, hnear.2.2⟩
  · split <;> omega
  · split <;> omega

set_option maxHeartbeats 8000000 in
/-- For quizzes of fewer than 40 questions, so for every quiz on the built-in bank
of 15, the percentage computed in binary64 is the exactly rounded one. -/
theorem percentage_exact_below_40 :
    ∀ total : Fin 40, ∀ score : Fin 40, score.1 ≤ total.1 → 0 < total.1 →
      percentage score.1 total.1 = some (exactPercentage score.1 total.1) := by
  decide

/-! ## Shuffle and slice lengths -/

theorem length_swap {α : Type} (a : List α) (i j : Nat) : (swap a i j).length = a.length := by
  unfold swap
  split
  · simp
  · rfl

theorem length_shuffleLoop {α : Type} (random : Nat → UnitDouble) (i k : Nat)
    (a : List α) : (shuffleLoop random i k a).length = a.length := by
  induction i generalizing k a with
  | zero => rfl
  | succ i ih =>
    rw [shuffleLoop, ih, length_swap]

theorem length_shuffleArray {α : Type} (random : Nat → UnitDouble) (a : List α) :
    (shuffleArray random a).length = a.length :=
  length_shuffleLoop random _ _ a

theorem length_slice0_nat {α : Type} (a : List α) (n : Nat) :
    (slice0 a (n : Int)).length = min n a.length := by
  unfold slice0
  have h : ¬ ((n : Int) < 0) := by omega
  simp only [h, if_false, Int.toNat_ofNat, List.length_take]

/-! ## The shuffle is a permutation -/

theorem cons_set_perm {α : Type} (t : List α) (j : Nat) (h y : α) (hy : t[j]? = some y) :
    (y :: t.set j h).Perm (h :: t) := by
  induction t generalizing j with
  | nil => simp at hy
  | cons c t ih =>
    cases j with
    | zero =>
      simp only [List.getElem?_cons_zero, Option.some.injEq] at hy
      subst hy
      simp only [List.set_cons_zero]
      exact List.Perm.swap h c t
    | succ j =>
      simp only [List.getElem?_cons_succ] at hy
      simp only [List.set_cons_succ]
      exact (List.Perm.swap c y _).trans (((ih j hy).cons c).trans (List.Perm.swap h c t))

theorem set_set_perm {α : Type} (a : List α) (i j : Nat) (x y : α)
    (hx : a[i]? = some x) (hy : a[j]? = some y) : ((a.set i y).set j x).Perm a := by
  induction a generalizing i j with
  | nil => simp at hx
  | cons c t ih =>
    cases i with
    | zero =>
      simp only [List.getElem?_cons_zero, Option.some.injEq] at hx
      subst hx
      cases j with
      | zero =>
        simp only [List.getElem?_cons_zero, Option.some.injEq] at hy
        subst hy
        simp
      | succ j =>
        simp only [List.getElem?_cons_succ] at hy
        simp only [List.set_cons_zero, List.set_cons_succ]
        exact cons_set_perm t j c y hy
    | succ i =>
      simp only [List.getElem?_cons_succ] at hx
      cases j with
      | zero =>
        simp only [List.getElem?_cons_zero, Option.some.injEq] at hy
        subst hy
        simp only [List.set_cons_zero, List.set_cons_succ]
        exact cons_set_perm t i c x hx
      | succ j =>
        simp only [List.getElem?_cons_succ] at hy
        simp only [List.set_cons_succ]
        exact (ih i j hx hy).cons c

theorem swap_perm {α : Type} (a : List α) (i j : Nat) : (swap a i j).Perm a := by
  unfold swap
  split
  · rename_i x y hx hy
    exact set_set_perm a i j x y hx hy
  · exact List.Perm.refl a

theorem shuffleLoop_perm {α : Type} (random : Nat → UnitDouble) (i k : Nat) (a : List α) :
    (shuffleLoop random i k a).Perm a := by
  induction i generalizing k a with
  | zero => exact List.Perm.refl a
  | succ i ih =>
    rw [shuffleLoop]
    exact (ih _ _).trans (swap_perm a _ _)

theorem shuffleArray_perm {α : Type} (random : Nat → UnitDouble) (a : List α) :
    (shuffleArray random a).Perm a :=
  shuffleLoop_perm random _ _ a

theorem shuffleVarsLoop_eq {α : Type} (random : Nat → UnitDouble) (i k : Nat)
    (vars : ShuffleVars α) :
    shuffleVarsLoop random i k vars
      = { array := vars.array, shuffled := shuffleLoop random i k vars.shuffled } := by
  induction i generalizing k vars with
  | zero => rfl
  | succ i ih =>
    rw [shuffleVarsLoop, ih, shuffleLoop]

theorem shuffleArrayVars_eq {α : Type} (random : Nat → UnitDouble) (array : List α) :
    shuffleArrayVars random array
      = { array := array, shuffled := shuffleArray random array } :=
  shuffleVarsLoop_eq random _ _ _

theorem swap_map {α β : Type} (f : α → β) (a : List α) (i j : Nat) :
    swap (a.map f) i j = (swap a i j).map f := by
  unfold swap
  cases hx : a[i]? <;> cases hy : a[j]? <;> simp [hx, hy, List.map_set]

theorem shuffleLoop_map {α β : Type} (f : α → β) (random : Nat → UnitDouble) (i k : Nat)
    (a : List α) : shuffleLoop random i k (a.map f) = (shuffleLoop random i k a).map f := by
  induction i generalizing k a with
  | zero => rfl
  | succ i ih =>
    rw [shuffleLoop, shuffleLoop, swap_map, ih]

theorem shuffleArray_map {α β : Type} (f : α → β) (random : Nat → UnitDouble) (a : List α) :
    shuffleArray random (a.map f) = (shuffleArray random a).map f := by
  unfold shuffleArray
  rw [List.length_map, shuffleLoop_map]

theorem map_some_eq_range_map {α : Type} (a : List α) :
    a.map some = (List.range a.length).map (fun p => a[p]?) := by
  apply List.ext_getElem?
  intro n
  by_cases h : n < a.length
  · simp [h, List.getElem?_eq_getElem]
  · have hr : (List.range a.length)[n]? = none :=
      List.getElem?_eq_none (by rw [List.length_range]; exact Nat.le_of_not_lt h)
    simp [hr, List.getElem?_eq_none (Nat.le_of_not_lt h)]

theorem slice0_eq_take {α : Type} (a : List α) (e : Int) : ∃ n, slice0 a e = a.take n := by
  unfold slice0
  split
  · exact ⟨_, rfl⟩
  · exact ⟨_, rfl⟩

/-- The selected questions of a new session, as bank positions: a prefix of a
shuffle of the bank is the bank read at pairwise distinct positions. -/
theorem selection_positions (bank : List Question) (random : Nat → UnitDouble) (e : Int) :
    ∃ (shuffled : List Question) (positions : List Nat),
      shuffled.Perm bank
        ∧ slice0 (shuffleArray random bank) e <+: shuffled
        ∧ positions.Nodup ∧ (∀ p ∈ positions, p < bank.length)
        ∧ positions.map (fun p => bank[p]?) = (slice0 (shuffleArray random bank) e).map some := by
  obtain ⟨n, hn⟩ := slice0_eq_take (shuffleArray random bank) e
  refine ⟨shuffleArray random bank, (shuffleArray random (List.range bank.length)).take n,
    shuffleArray_perm random bank, ?_, ?_, ?_, ?_⟩
  · rw [hn]
    exact List.take_prefix n _
  · have hp := shuffleArray_perm random (List.range bank.length)
    exact (hp.nodup_iff.2 (List.nodup_range _)).sublist (List.take_sublist n _)
  · intro p hp
    have hmem : p ∈ shuffleArray random (List.range bank.length) := List.mem_of_mem_take hp
    have := (shuffleArray_perm random (List.range bank.length)).mem_iff.1 hmem
    exact List.mem_range.1 this
  · rw [hn, List.map_take, List.map_take, ← shuffleArray_map, ← shuffleArray_map,
      map_some_eq_range_map]

/-! ## The shuffle as a function of its draws -/

theorem swap_getElem?_of_ne {α : Type} (a : List α) (i j k : Nat) (hi : k ≠ i) (hj : k ≠ j) :
    (swap a i j)[k]? = a[k]? := by
  unfold swap
  split
  · rw [List.getElem?_set_ne (Ne.symm hj), List.getElem?_set_ne (Ne.symm hi)]
  · rfl

theorem swap_getElem?_left {α : Type} (a : List α) (i j : Nat) (hi : i < a.length)
    (hj : j < a.length) : (swap a i j)[i]? = a[j]? := by
  unfold swap
  rw [List.getElem?_eq_getElem hi, List.getElem?_eq_getElem hj]
  simp only
  by_cases h : j = i
  · subst h
    rw [List.getElem?_set, if_pos rfl, if_pos (by simpa using hj)]
  · rw [List.getElem?_set_ne h, List.getElem?_set, if_pos rfl, if_pos hi]

theorem shuffleDraws_perm {α : Type} (i : Nat) (draws : List Nat) (a : List α) :
    (shuffleDraws i draws a).Perm a := by
  induction i generalizing draws a with
  | zero => simp [shuffleDraws]
  | succ i ih =>
    cases draws with
    | nil => simp [shuffleDraws]
    | cons j draws =>
      rw [shuffleDraws]
      exact (ih _ _).trans (swap_perm a _ _)

theorem shuffleDraws_getElem?_gt {α : Type} (i : Nat) (draws : List Nat) (a : List α) (k : Nat)
    (hv : ValidDraws i draws) (hk : i < k) : (shuffleDraws i draws a)[k]? = a[k]? := by
  induction i generalizing draws a with
  | zero => simp [shuffleDraws]
  | succ i ih =>
    cases draws with
    | nil => simp [shuffleDraws]
    | cons j draws =>
      obtain ⟨hj, hv'⟩ := hv
      rw [shuffleDraws, ih draws _ hv' (by omega)]
      exact swap_getElem?_of_ne a _ _ k (by omega) (by omega)

theorem shuffleLoop_eq_shuffleDraws {α : Type} (random : Nat → UnitDouble) (i k : Nat)
    (a : List α) : shuffleLoop random i k a = shuffleDraws i (randomDraws random i k) a := by
  induction i generalizing k a with
  | zero => simp [shuffleLoop, shuffleDraws]
  | succ i ih =>
    rw [shuffleLoop, randomDraws, shuffleDraws, ih]

theorem validDraws_randomDraws (random : Nat → UnitDouble) (i k : Nat) :
    ValidDraws i (randomDraws random i k) := by
  induction i generalizing k with
  | zero => simp [ValidDraws, randomDraws]
  | succ i ih =>
    rw [randomDraws]
    exact ⟨randomIndex_le _ _, ih _⟩

theorem shuffleDraws_existsUnique {α : Type} (i : Nat) (a l : List α) (hnd : a.Nodup)
    (hi : i < a.length) (hperm : l.Perm a) (htail : ∀ k, i < k → l[k]? = a[k]?) :
    ∃! draws, ValidDraws i draws ∧ shuffleDraws i draws a = l := by
  have hlnd : l.Nodup := hperm.nodup_iff.2 hnd
  have hlen : l.length = a.length := hperm.length_eq
  induction i generalizing a with
  | zero =>
    refine ⟨[], ⟨rfl, ?_⟩, ?_⟩
    · simp only [shuffleDraws]
      apply List.ext_getElem?
      intro k
      cases k with
      | succ k => exact (htail (k + 1) (by omega)).symm
      | zero =>
        have hl0 : l[0]? = some l[0] := List.getElem?_eq_getElem (by omega)
        have hmem : l[0] ∈ a := hperm.mem_iff.1 (List.getElem_mem _)
        obtain ⟨m, hm⟩ := List.mem_iff_getElem?.1 hmem
        cases m with
        | zero => rw [hl0, hm]
        | succ m =>
          exfalso
          have h1 : l[m + 1]? = a[m + 1]? := htail (m + 1) (by omega)
          have h2 : l[0]? = l[m + 1]? := by rw [hl0, h1, hm]
          have := List.getElem?_inj (by omega) hlnd h2
          omega
    · rintro ds ⟨hdv, _⟩
      exact hdv
  | succ i ih =>
    have hx : l[i + 1]? = some l[i + 1] := List.getElem?_eq_getElem (by omega)
    have hxa : l[i + 1] ∈ a := hperm.mem_iff.1 (List.getElem_mem _)
    obtain ⟨j, hj⟩ := List.mem_iff_getElem?.1 hxa
    have hjlt : j < a.length := by
      by_contra hge
      rw [List.getElem?_eq_none (Nat.le_of_not_lt hge)] at hj
      cases hj
    have hjle : j ≤ i + 1 := by
      by_contra hgt
      have h1 : l[j]? = a[j]? := htail j (by omega)
      have h2 : l[i + 1]? = l[j]? := by rw [hx, h1, hj]
      have := List.getElem?_inj (by omega) hlnd h2
      omega
    have hswap_nd : (swap a (i + 1) j).Nodup := (swap_perm a _ _).nodup_iff.2 hnd
    have hswap_len : (swap a (i + 1) j).length = a.length := length_swap a _ _
    have hperm' : l.Perm (swap a (i + 1) j) := hperm.trans (swap_perm a _ _).symm
    have htail' : ∀ k, i < k → l[k]? = (swap a (i + 1) j)[k]? := by
      intro k hk
      by_cases hk1 : k = i + 1
      · subst hk1
        rw [swap_getElem?_left a _ _ hi hjlt, hx, hj]
      · rw [swap_getElem?_of_ne a _ _ k hk1 (by omega)]
        exact htail k (by omega)
    obtain ⟨draws, ⟨hv, he⟩, huniq⟩ :=
      ih (swap a (i + 1) j) hswap_nd (by omega) hperm' htail' (by omega)
    refine ⟨j :: draws, ⟨⟨hjle, hv⟩, ?_⟩, ?_⟩
    · rw [shuffleDraws]
      exact he
    · rintro ds ⟨hdv, hde⟩
      cases ds with
      | nil => exact absurd hdv (by simp [ValidDraws])
      | cons j2 ds2 =>
        obtain ⟨hj2, hv2⟩ := hdv
        rw [shuffleDraws] at hde
        have hpos : l[i + 1]? = (swap a (i + 1) j2)[i + 1]? := by
          rw [← hde]
          exact shuffleDraws_getElem?_gt i ds2 _ (i + 1) hv2 (by omega)
        rw [swap_getElem?_left a _ _ hi (by omega), hx] at hpos
        have hjj : j2 = j := List.getElem?_inj (by omega) hnd (by rw [← hpos, hj])
        subst hjj
        rw [huniq ds2 ⟨hv2, hde⟩]

theorem mem_allDraws (i : Nat) (draws : List Nat) : draws ∈ allDraws i ↔ ValidDraws i draws := by
  induction i generalizing draws with
  | zero => simp [allDraws, ValidDraws]
  | succ i ih =>
    cases draws with
    | nil => simp [allDraws, ValidDraws]
    | cons j ds =>
      simp only [allDraws, List.mem_flatMap, List.mem_range, List.mem_map, List.cons.injEq,
        ValidDraws]
      constructor
      · rintro ⟨j', hj', ds', hds', rfl, rfl⟩
        exact ⟨by omega, (ih ds').1 hds'⟩
      · rintro ⟨hj, hv⟩
        exact ⟨j, by omega, ds, (ih ds).2 hv, rfl, rfl⟩

theorem nodup_allDraws (i : Nat) : (allDraws i).Nodup := by
  induction i with
  | zero => simp [allDraws]
  | succ i ih =>
    rw [allDraws, List.nodup_flatMap]
    refine ⟨?_, ?_⟩
    · intro j _
      exact ih.map (fun _ _ h => (List.cons.inj h).2)
    · refine (List.nodup_range (i + 2)).imp ?_
      intro j j' hne
      simp only [Function.onFun, List.Disjoint, List.mem_map]
      rintro ds ⟨d1, _, rfl⟩ ⟨d2, _, h2⟩
      exact hne (List.cons.inj h2).1.symm

theorem length_allDraws (i : Nat) : (allDraws i).length = (i + 1).factorial := by
  induction i with
  | zero => rfl
  | succ i ih =>
    rw [allDraws, List.length_flatMap]
    have hconst : (List.length ∘ fun j => (allDraws i).map (fun draws => j :: draws))
        = fun _ => (i + 1).factorial := by
      funext j
      simp [ih]
    rw [hconst, List.map_const', List.length_range, List.sum_replicate, smul_eq_mul,
      Nat.factorial_succ (i + 1)]

theorem shuffleDraws_of_perm {α : Type} (array l : List α) (hnd : array.Nodup)
    (hperm : l.Perm array) :
    ∃! draws, ValidDraws (array.length - 1) draws
      ∧ shuffleDraws (array.length - 1) draws array = l := by
  cases array with
  | nil =>
    have hl : l = [] := List.Perm.eq_nil hperm
    subst hl
    refine ⟨[], ⟨rfl, rfl⟩, ?_⟩
    rintro ds ⟨hdv, _⟩
    exact hdv
  | cons c t =>
    apply shuffleDraws_existsUnique _ _ _ hnd (by simp) hperm
    intro k hk
    have hlen := hperm.length_eq
    simp only [List.length_cons] at hk hlen
    rw [List.getElem?_eq_none (by rw [hlen]; omega),
      List.getElem?_eq_none (by rw [List.length_cons]; omega)]

theorem outputs_perm_permutations {α : Type} (array : List α) (hnd : array.Nodup) :
    ((allDraws (array.length - 1)).map
        (fun draws => shuffleDraws (array.length - 1) draws array)).Perm array.permutations := by
  rw [List.perm_ext_iff_of_nodup _ (List.nodup_permutations array hnd)]
  · intro l
    rw [List.mem_permutations, List.mem_map]
    constructor
    · rintro ⟨draws, _, rfl⟩
      exact shuffleDraws_perm _ _ _
    · intro hperm
      obtain ⟨draws, ⟨hv, he⟩, _⟩ := shuffleDraws_of_perm array l hnd hperm
      exact ⟨draws, (mem_allDraws _ _).2 hv, he⟩
  · refine List.Nodup.map_on ?_ (nodup_allDraws _)
    intro d1 h1 d2 h2 heq
    have hperm := shuffleDraws_perm (array.length - 1) d2 array
    obtain ⟨d, _, huniq⟩ := shuffleDraws_of_perm array _ hnd hperm
    rw [huniq d1 ⟨(mem_allDraws _ _).1 h1, heq⟩, huniq d2 ⟨(mem_allDraws _ _).1 h2, rfl⟩]

/-! ## The clean-up sweep -/

theorem entries_foldl_cleanUpVisit (c : Int) (l : List (String × Session)) (m : Store) :
    (l.foldl (cleanUpVisit c) m).entries =
      m.entries.filter
        (fun e => !(l.any (fun x => decide (x.2.startTime < c) && decide (x.1 = e.1)))) := by
  induction l generalizing m with
  | nil => simp
  | cons x rest ih =>
    rw [List.foldl_cons, ih]
    by_cases hx : x.2.startTime < c
    · have hm : (cleanUpVisit c m x).entries = m.entries.filter (fun e => decide (e.1 ≠ x.1)) := by
        simp only [cleanUpVisit, hx, if_true, Store.delete]
        exact erase_eq_filter x.1 m.entries m.nodup
      rw [hm, List.filter_filter]
      apply List.filter_congr
      intro e _
      by_cases he : x.1 = e.1
      · simp [hx, he]
      · have he' : e.1 ≠ x.1 := fun h => he h.symm
        simp [hx, he, he']
    · have hm : cleanUpVisit c m x = m := by simp [cleanUpVisit, hx]
      rw [hm]
      apply List.filter_congr
      intro e _
      simp [hx]

theorem entries_sweep (c : Int) (st : Store) :
    (st.entries.foldl (cleanUpVisit c) st).entries =
      st.entries.filter (fun e => !decide (e.2.startTime < c)) := by
  rw [entries_foldl_cleanUpVisit c st.entries st]
  apply List.filter_congr
  intro e he
  by_cases hs : e.2.startTime < c
  · have : st.entries.any
        (fun x => decide (x.2.startTime < c) && decide (x.1 = e.1)) = true := by
      rw [List.any_eq_true]
      exact ⟨e, he, by simp [hs]⟩
    simp [this, hs]
  · have : st.entries.any
        (fun x => decide (x.2.startTime < c) && decide (x.1 = e.1)) = false := by
      rw [List.any_eq_false]
      intro x hx hcond
      simp only [Bool.and_eq_true, decide_eq_true_eq] at hcond
      obtain ⟨hstale, hkey⟩ := hcond
      have hx' : (e.1, x.2) ∈ st.entries := by rw [← hkey]; exact hx
      have he' : (e.1, e.2) ∈ st.entries := he
      have := mem_unique_of_nodup st.entries st.nodup e.1 x.2 e.2 hx' he'
      rw [this] at hstale
      exact hs hstale
    simp [this, hs]

theorem get_sweep (c : Int) (st : Store) (sid : String) :
    (st.entries.foldl (cleanUpVisit c) st).get sid =
      match st.get sid with
      | some s => if s.startTime < c then none else some s
      | none => none := by
  unfold Store.get
  rw [entries_sweep, lookup_filter _ _ _ st.nodup]
  cases lookup sid st.entries with
  | none => rfl
  | some s =>
    by_cases hs : s.startTime < c
    · simp [hs]
    · simp [hs]

theorem cleanUpOldSessions_eq (st : Store) (now : Int) :
    cleanUpOldSessions st now = st.entries.foldl (cleanUpVisit (now - 3600000)) st := rfl

theorem entries_cleanUpOldSessions (st : Store) (now : Int) :
    (cleanUpOldSessions st now).entries =
      st.entries.filter (fun e => !decide (e.2.startTime < now - 3600000)) := by
  rw [cleanUpOldSessions_eq, entries_sweep]

theorem get_cleanUpOldSessions (st : Store) (now : Int) (sid : String) :
    (cleanUpOldSessions st now).get sid =
      match st.get sid with
      | some s => if s.startTime < now - 3600000 then none else some s
      | none => none := by
  rw [cleanUpOldSessions_eq, get_sweep]

theorem get_cleanUpOldSessions_some {st : Store} {now : Int} {sid : String} {s : Session}
    (h : (cleanUpOldSessions st now).get sid = some s) : st.get sid = some s := by
  rw [get_cleanUpOldSessions] at h
  cases hg : st.get sid with
  | none => rw [hg] at h; cases h
  | some s0 =>
    rw [hg] at h
    dsimp only at h
    by_cases hs : s0.startTime < now - 3600000
    · rw [if_pos hs] at h; cases h
    · rw [if_neg hs] at h
      exact h

/-! ## Sessions along a run -/

theorem run_reads_fst (bank : List Question) (st : Store) (evs : List Event)
    (h : ∀ e ∈ evs, e.isRead = true) : (run bank st evs).1 = st := by
  induction evs generalizing st with
  | nil => rfl
  | cons e rest ih =>
    have he := h e (List.mem_cons_self e rest)
    have hrest : ∀ x ∈ rest, x.isRead = true := fun x hx => h x (List.mem_cons_of_mem e hx)
    cases e with
    | getQuestion sid0 =>
      simp only [run, step, getQuestion_fst]
      exact ih st hrest
    | getResults sid0 now0 =>
      simp only [run, step, getResults_fst]
      exact ih st hrest
    | startQuiz _ _ _ => simp [Event.isRead] at he
    | submitAnswer _ _ => simp [Event.isRead] at he
    | cleanUp _ => simp [Event.isRead] at he

theorem step_preserves (P : Session → Prop) (bank : List Question) (st : Store) (e : Event)
    (hfresh : ∀ (qs : List Question) (now : Int),
      P { questions := qs, currentQuestion := 0, score := 0, answers := [], startTime := now })
    (hans : ∀ (s : Session) (a : JsValue) (hlt : s.currentQuestion < s.questions.length),
      P s → P (s.answered s.questions[s.currentQuestion] a))
    (hst : ∀ sid s, st.get sid = some s → P s) :
    ∀ sid s, (step bank st e).1.get sid = some s → P s := by
  intro sid s h
  cases e with
  | startQuiz qc random now =>
    simp only [step, startQuiz] at h
    rw [Store.get_set] at h
    by_cases hk : sid = generateSessionId (random 0)
    · rw [if_pos hk] at h
      cases h
      exact hfresh _ _
    · rw [if_neg hk] at h
      exact hst sid s h
  | getQuestion sid0 =>
    simp only [step, getQuestion_fst] at h
    exact hst sid s h
  | getResults sid0 now =>
    simp only [step, getResults_fst] at h
    exact hst sid s h
  | cleanUp now =>
    simp only [step] at h
    exact hst sid s (get_cleanUpOldSessions_some h)
  | submitAnswer sid0 a =>
    cases hg : st.get sid0 with
    | none =>
      simp only [step, submitAnswer_none a hg] at h
      exact hst sid s h
    | some s0 =>
      by_cases hc : s0.questions.length ≤ s0.currentQuestion
      · simp only [step, submitAnswer_done a hg hc] at h
        exact hst sid s h
      · have hlt : s0.currentQuestion < s0.questions.length := Nat.lt_of_not_le hc
        simp only [step, submitAnswer_open a hg hlt] at h
        rw [Store.get_set] at h
        by_cases hk : sid = sid0
        · rw [if_pos hk] at h
          cases h
          exact hans s0 a hlt (hst sid0 s0 hg)
        · rw [if_neg hk] at h
          exact hst sid s h

theorem reachable_invariant (P : Session → Prop) (bank : List Question)
    (hfresh : ∀ (qs : List Question) (now : Int),
      P { questions := qs, currentQuestion := 0, score := 0, answers := [], startTime := now })
    (hans : ∀ (s : Session) (a : JsValue) (hlt : s.currentQuestion < s.questions.length),
      P s → P (s.answered s.questions[s.currentQuestion] a))
    (st : Store) (hr : Reachable bank st) :
    ∀ sid s, st.get sid = some s → P s := by
  induction hr with
  | init =>
    intro sid s h
    simp at h
  | step e _ ih => exact step_preserves P bank _ e hfresh hans ih

theorem reachable_run (bank : List Question) (evs : List Event) (st : Store)
    (hr : Reachable bank st) : Reachable bank (run bank st evs).1 := by
  induction evs generalizing st with
  | nil => exact hr
  | cons e rest ih => exact ih _ (Reachable.step e hr)

theorem step_session (bank : List Question) (st : Store) (sid : String) (e : Event)
    (hno : e.createdId ≠ some sid) (s1 : Session)
    (h : (step bank st e).1.get sid = some s1) :
    ∃ s, st.get sid = some s ∧ s1.questions = s.questions ∧ s1.startTime = s.startTime
      ∧ s1.currentQuestion
          = s.currentQuestion + (if isAcceptedAnswer sid e (step bank st e).2 then 1 else 0)
      ∧ s1.score = s.score + (if isCorrectAnswer sid e (step bank st e).2 then 1 else 0)
      ∧ (s.currentQuestion ≤ s.questions.length → s1.currentQuestion ≤ s1.questions.length) := by
  cases e with
  | startQuiz qc random now =>
    have hk : sid ≠ generateSessionId (random 0) := by
      intro hk
      apply hno
      simp [Event.createdId, hk]
    simp only [step, startQuiz] at h
    rw [Store.get_set_ne _ _ _ _ hk] at h
    exact ⟨s1, h, rfl, rfl, by simp [isAcceptedAnswer], by simp [isCorrectAnswer], id⟩
  | getQuestion sid0 =>
    simp only [step, getQuestion_fst] at h
    exact ⟨s1, h, rfl, rfl, by simp [isAcceptedAnswer], by simp [isCorrectAnswer], id⟩
  | getResults sid0 now =>
    simp only [step, getResults_fst] at h
    exact ⟨s1, h, rfl, rfl, by simp [isAcceptedAnswer], by simp [isCorrectAnswer], id⟩
  | cleanUp now =>
    simp only [step] at h
    exact ⟨s1, get_cleanUpOldSessions_some h, rfl, rfl, by simp [isAcceptedAnswer],
      by simp [isCorrectAnswer], id⟩
  | submitAnswer sid0 a =>
    cases hg : st.get sid0 with
    | none =>
      simp only [step, submitAnswer_none a hg] at h ⊢
      exact ⟨s1, h, rfl, rfl, by simp [isAcceptedAnswer, Response.status],
        by simp [isCorrectAnswer], id⟩
    | some s0 =>
      by_cases hc : s0.questions.length ≤ s0.currentQuestion
      · simp only [step, submitAnswer_done a hg hc] at h ⊢
        exact ⟨s1, h, rfl, rfl, by simp [isAcceptedAnswer, Response.status],
          by simp [isCorrectAnswer], id⟩
      · have hlt : s0.currentQuestion < s0.questions.length := Nat.lt_of_not_le hc
        simp only [step, submitAnswer_open a hg hlt] at h ⊢
        by_cases hk : sid = sid0
        · subst hk
          rw [Store.get_set_self] at h
          cases h
          refine ⟨s0, hg, rfl, rfl, ?_, ?_, ?_⟩
          · simp [isAcceptedAnswer, Response.status, Session.answered]
          · cases hcorr : a.strictEqNumber s0.questions[s0.currentQuestion].correct <;>
              simp [isCorrectAnswer, Session.answered, hcorr]
          · intro _
            simp only [Session.answered]
            omega
        · rw [Store.get_set_ne _ _ _ _ hk] at h
          have hk' : ¬ sid0 = sid := fun h' => hk h'.symm
          refine ⟨s1, h, rfl, rfl, by simp [isAcceptedAnswer, hk'], ?_, id⟩
          cases hcorr : a.strictEqNumber s0.questions[s0.currentQuestion].correct <;>
            simp [isCorrectAnswer, hk']

theorem run_session (bank : List Question) (sid : String) (evs : List Event) (st : Store)
    (hno : ∀ e ∈ evs, e.createdId ≠ some sid) (s1 : Session)
    (h : (run bank st evs).1.get sid = some s1) :
    ∃ s, st.get sid = some s ∧ s1.questions = s.questions ∧ s1.startTime = s.startTime
      ∧ s1.currentQuestion = s.currentQuestion + acceptedAnswers sid evs (run bank st evs).2
      ∧ s1.score = s.score + correctAnswers sid evs (run bank st evs).2
      ∧ (s.currentQuestion ≤ s.questions.length → s1.currentQuestion ≤ s1.questions.length) := by
  induction evs generalizing st with
  | nil =>
    simp only [run] at h ⊢
    exact ⟨s1, h, rfl, rfl, by simp [acceptedAnswers], by simp [correctAnswers], id⟩
  | cons e rest ih =>
    have hrest : ∀ x ∈ rest, x.createdId ≠ some sid :=
      fun x hx => hno x (List.mem_cons_of_mem e hx)
    simp only [run] at h ⊢
    obtain ⟨s2, hs2, hq2, ht2, hc2, hsc2, hb2⟩ := ih (step bank st e).1 hrest h
    obtain ⟨s, hs, hq, ht, hc, hsc, hb⟩ :=
      step_session bank st sid e (hno e (List.mem_cons_self e rest)) s2 hs2
    refine ⟨s, hs, hq2.trans hq, ht2.trans ht, ?_, ?_, fun hle => hb2 (hb hle)⟩
    · simp only [acceptedAnswers]
      omega
    · simp only [correctAnswers]
      omega

theorem reachable_questions (bank : List Question) (Q : List Question → Prop)
    (hQ : ∀ (random : Nat → UnitDouble) (e : Int), Q (slice0 (shuffleArray random bank) e))
    (st : Store) (hr : Reachable bank st) :
    ∀ sid s, st.get sid = some s → Q s.questions := by
  induction hr with
  | init =>
    intro sid s h
    simp at h
  | step e _ ih =>
    intro sid s h
    by_cases hc : e.createdId = some sid
    · cases e with
      | startQuiz qc random now =>
        simp only [Event.createdId, Option.some.injEq] at hc
        subst hc
        simp only [step, startQuiz] at h
        rw [Store.get_set_self] at h
        cases h
        exact hQ _ _
      | getQuestion sid0 => simp [Event.createdId] at hc
      | submitAnswer sid0 a => simp [Event.createdId] at hc
      | getResults sid0 now => simp [Event.createdId] at hc
      | cleanUp now => simp [Event.createdId] at hc
    · obtain ⟨s0, hs0, hq, _⟩ := step_session bank _ sid e hc s h
      rw [hq]
      exact ih sid s0 hs0

/-! ## Claims -/

/-- C1: for a stored session whose cursor is below the number of selected
questions, with `q` the question at the cursor, submitting `q.correct` is answered
with `correct = true`, submitting any other index in `[0, number of options of q)`
is answered with `correct = false`, and in both cases `correctAnswer` is
`q.correct`. -/
theorem submitAnswer_grades_current_question (st : Store) (sid : String) (s : Session)
    (hget : st.get sid = some s) (hlt : s.currentQuestion < s.questions.length) :
    (submitAnswer st sid (JsValue.number ((s.questions[s.currentQuestion].correct : Int) : ℚ))).2
        = Response.answerResult true s.questions[s.currentQuestion].correct
            (orNull s.questions[s.currentQuestion].explanation)
      ∧ ∀ k : Nat, k < s.questions[s.currentQuestion].answers.length →
          (k : Int) ≠ s.questions[s.currentQuestion].correct →
          (submitAnswer st sid (JsValue.number (k : ℚ))).2
            = Response.answerResult false s.questions[s.currentQuestion].correct
                (orNull s.questions[s.currentQuestion].explanation) := by
  refine ⟨?_, ?_⟩
  · rw [submitAnswer_open _ hget hlt, strictEqNumber_self]
  · intro k _ hk
    rw [submitAnswer_open _ hget hlt, strictEqNumber_nat_ne k _ hk]

/-- Witness of C1 on `demoStore`: the current question has correct index 1, so
answer 1 is graded correct and answer 0 incorrect. -/
theorem submitAnswer_grades_current_question_witness :
    demoStore.get "i" = some demoSession
      ∧ (submitAnswer demoStore "i" (JsValue.number ((1 : Int) : ℚ))).2
          = Response.answerResult true 1 none
      ∧ (submitAnswer demoStore "i" (JsValue.number ((0 : Nat) : ℚ))).2
          = Response.answerResult false 1 none :=
  have h := submitAnswer_grades_current_question demoStore "i" demoSession
    (by decide) (by decide)
  ⟨by decide, h.1, h.2 0 (by decide) (by decide)⟩

/-- C2: `getQuestion` is idempotent.  Handling `GET /api/question/:sessionId`
leaves the store unchanged, so a second call returns the identical response, also
when other read requests (question or results, on any session) are handled in
between; for an existing session that is not complete the response carries
`questionNumber = cursor + 1`, `totalQuestions` = number of selected questions,
and the text and answers of the selected question at index `cursor`. -/
theorem getQuestion_idempotent (bank : List Question) (st : Store) (sid : String) :
    (getQuestion st sid).1 = st
      ∧ getQuestion (getQuestion st sid).1 sid = getQuestion st sid
      ∧ (∀ evs : List Event, (∀ e ∈ evs, e.isRead = true) →
          getQuestion (run bank (getQuestion st sid).1 evs).1 sid = getQuestion st sid)
      ∧ ∀ (s : Session) (hlt : s.currentQuestion < s.questions.length),
          st.get sid = some s →
          (getQuestion st sid).2
            = Response.question (s.currentQuestion + 1) s.questions.length
                s.questions[s.currentQuestion].question
                s.questions[s.currentQuestion].answers := by
  refine ⟨getQuestion_fst st sid, ?_, ?_, ?_⟩
  · rw [getQuestion_fst]
  · intro evs h
    rw [getQuestion_fst, run_reads_fst bank st evs h]
  · intro s hlt hget
    rw [getQuestion_open hget hlt]

/-- Witness of C2 on `demoStore`: the first question is delivered as number 1 of
3, before and after a `getResults` request. -/
theorem getQuestion_idempotent_witness :
    getQuestion (run questions (getQuestion demoStore "i").1 [Event.getResults "i" 2000]).1 "i"
        = getQuestion demoStore "i"
      ∧ (getQuestion demoStore "i").2
          = Response.question 1 3 "What is the largest planet in our solar system?"
              ["Earth", "Jupiter", "Saturn", "Neptune"] :=
  have h := getQuestion_idempotent questions demoStore "i"
  ⟨h.2.2.1 [Event.getResults "i" 2000] (by decide),
    h.2.2.2 demoSession (by decide) (by decide)⟩

/-- C3: take a session created by `start-quiz` with `n` selected questions and any
later run of events in which its id is not created again and after which it is
still stored.  The number `k` of accepted `submitAnswer` calls on it is at most
`n`.  Once `k = n`, `getQuestion` and every `submitAnswer` on it respond with
status 400 and leave the store unchanged; while `k < n` neither responds with 400
(both respond 200). -/
theorem completed_quiz_rejects_requests (bank : List Question) (st0 : Store)
    (qc : Option Int) (random : Nat → UnitDouble) (now : Int) (n : Nat) (evs : List Event)
    (s1 : Session)
    (hstart : (startQuiz bank st0 qc random now).2
      = Response.quizStarted (generateSessionId (random 0)) n "Quiz started successfully")
    (hno : ∀ e ∈ evs, e.createdId ≠ some (generateSessionId (random 0)))
    (hget : (run bank (startQuiz bank st0 qc random now).1 evs).1.get
      (generateSessionId (random 0)) = some s1) :
    acceptedAnswers (generateSessionId (random 0)) evs
        (run bank (startQuiz bank st0 qc random now).1 evs).2 ≤ n
      ∧ (acceptedAnswers (generateSessionId (random 0)) evs
            (run bank (startQuiz bank st0 qc random now).1 evs).2 = n →
          getQuestion (run bank (startQuiz bank st0 qc random now).1 evs).1
              (generateSessionId (random 0))
            = ((run bank (startQuiz bank st0 qc random now).1 evs).1,
                Response.error 400 "Quiz completed")
          ∧ ∀ a : JsValue,
              submitAnswer (run bank (startQuiz bank st0 qc random now).1 evs).1
                  (generateSessionId (random 0)) a
                = ((run bank (startQuiz bank st0 qc random now).1 evs).1,
                    Response.error 400 "Quiz already completed"))
      ∧ (acceptedAnswers (generateSessionId (random 0)) evs
            (run bank (startQuiz bank st0 qc random now).1 evs).2 < n →
          (getQuestion (run bank (startQuiz bank st0 qc random now).1 evs).1
              (generateSessionId (random 0))).2.status = 200
          ∧ ∀ a : JsValue,
              (submitAnswer (run bank (startQuiz bank st0 qc random now).1 evs).1
                  (generateSessionId (random 0)) a).2.status = 200) := by
  obtain ⟨s0, hs0, hcur0, _, _, _, hresp⟩ := get_startQuiz_self bank st0 qc random now
  obtain ⟨s, hs, hq, _, hcur, _, hle⟩ :=
    run_session bank (generateSessionId (random 0)) evs _ hno s1 hget
  rw [hs0] at hs
  cases hs
  rw [hresp] at hstart
  have hn : s0.questions.length = n := by
    injection hstart
  rw [hcur0, Nat.zero_add] at hcur
  have hbound : s1.currentQuestion ≤ s1.questions.length := hle (by omega)
  have hlen : s1.questions.length = n := by rw [hq, hn]
  rw [← hcur]
  refine ⟨by omega, ?_, ?_⟩
  · intro hk
    have hc : s1.questions.length ≤ s1.currentQuestion := by omega
    exact ⟨getQuestion_done hget hc, fun a => submitAnswer_done a hget hc⟩
  · intro hk
    have hlt : s1.currentQuestion < s1.questions.length := by omega
    refine ⟨?_, fun a => ?_⟩
    · rw [getQuestion_open hget hlt]; rfl
    · rw [submitAnswer_open a hget hlt]; rfl

/-- Witness of C3: a quiz of one question on the built-in bank.  After the single
answer is accepted, `getQuestion` and `submitAnswer` answer 400. -/
theorem completed_quiz_rejects_requests_witness :
    acceptedAnswers "i" [Event.getQuestion "i", Event.submitAnswer "i" (JsValue.number 0)]
        (run questions (startQuiz questions Store.empty (some 1) (fun _ => half) 1000).1
          [Event.getQuestion "i", Event.submitAnswer "i" (JsValue.number 0)]).2 = 1
      ∧ (getQuestion
          (run questions (startQuiz questions Store.empty (some 1) (fun _ => half) 1000).1
            [Event.getQuestion "i", Event.submitAnswer "i" (JsValue.number 0)]).1 "i").2
          = Response.error 400 "Quiz completed"
      ∧ (submitAnswer
          (run questions (startQuiz questions Store.empty (some 1) (fun _ => half) 1000).1
            [Event.getQuestion "i", Event.submitAnswer "i" (JsValue.number 0)]).1 "i"
            (JsValue.number 1)).2
          = Response.error 400 "Quiz already completed" :=
  have h := completed_quiz_rejects_requests questions Store.empty (some 1) (fun _ => half)
    1000 1 [Event.getQuestion "i", Event.submitAnswer "i" (JsValue.number 0)]
    { questions := [demoSession.questions[0]], currentQuestion := 1, score := 0,
      answers := [{ question := "What is the largest planet in our solar system?",
                    userAnswer := JsValue.number 0, correctAnswer := 1, isCorrect := false }],
      startTime := 1000 }
    (by decide) (by decide) (by decide)
  ⟨by decide, congrArg Prod.snd (h.2.1 (by decide)).1,
    congrArg Prod.snd ((h.2.1 (by decide)).2 (JsValue.number 1))⟩

/-- C4: for every question bank and every non-negative integer `questionCount`
(10 when the body omits it), `start-quiz` answers with
`totalQuestions = min(questionCount, bankSize)` and stores, under the returned id,
a session with that many selected questions, cursor 0, score 0 and an empty answer
log. -/
theorem startQuiz_selects_min (bank : List Question) (st : Store)
    (questionCount : Option Nat) (random : Nat → UnitDouble) (now : Int) :
    (startQuiz bank st (questionCount.map Int.ofNat) random now).2
        = Response.quizStarted (generateSessionId (random 0))
            (min (questionCount.getD 10) bank.length) "Quiz started successfully"
      ∧ ∃ s : Session,
          (startQuiz bank st (questionCount.map Int.ofNat) random now).1.get
              (generateSessionId (random 0)) = some s
            ∧ s.questions.length = min (questionCount.getD 10) bank.length
            ∧ s.currentQuestion = 0 ∧ s.score = 0 ∧ s.answers = [] := by
  have hcount : (questionCount.map Int.ofNat).getD 10 = ((questionCount.getD 10 : Nat) : Int) := by
    cases questionCount <;> rfl
  have hmin : min ((questionCount.map Int.ofNat).getD 10) (bank.length : Int)
      = ((min (questionCount.getD 10) bank.length : Nat) : Int) := by
    rw [hcount]; omega
  have hlen : (slice0 (shuffleArray (fun k => random (k + 1)) bank)
      (min ((questionCount.map Int.ofNat).getD 10) (bank.length : Int))).length
      = min (questionCount.getD 10) bank.length := by
    rw [hmin, length_slice0_nat, length_shuffleArray]
    omega
  refine ⟨?_, ?_⟩
  · simp only [startQuiz]
    rw [hlen]
  · refine ⟨_, Store.get_set_self _ _ _, ?_, rfl, rfl, rfl⟩
    exact hlen

/-- C5: in every reachable store the score of every stored session equals the
number of its log entries with `isCorrect == true`; and for a session created by
`start-quiz`, after any run of events that does not create its id again, the score
that `getResults` returns equals the number of `submitAnswer` responses on that
session that had `correct == true`. -/
theorem score_counts_correct_answers (bank : List Question) :
    (∀ (st : Store), Reachable bank st → ∀ (sid : String) (s : Session),
        st.get sid = some s → s.score = s.answers.countP (fun r => r.isCorrect))
      ∧ ∀ (st0 : Store) (qc : Option Int) (random : Nat → UnitDouble) (now t : Int)
          (evs : List Event) (s1 : Session),
          (∀ e ∈ evs, e.createdId ≠ some (generateSessionId (random 0))) →
          (run bank (startQuiz bank st0 qc random now).1 evs).1.get
              (generateSessionId (random 0)) = some s1 →
          (getResults (run bank (startQuiz bank st0 qc random now).1 evs).1
              (generateSessionId (random 0)) t).2
            = Response.results
                (correctAnswers (generateSessionId (random 0)) evs
                  (run bank (startQuiz bank st0 qc random now).1 evs).2)
                s1.questions.length
                (percentage
                  (correctAnswers (generateSessionId (random 0)) evs
                    (run bank (startQuiz bank st0 qc random now).1 evs).2)
                  s1.questions.length)
                (timeTaken t now) s1.answers := by
  refine ⟨?_, ?_⟩
  · intro st hr sid s h
    refine reachable_invariant
      (fun s => s.score = s.answers.countP (fun r => r.isCorrect)) bank ?_ ?_ st hr sid s h
    · intro qs now
      simp
    · intro s a hlt hs
      simp only [Session.answered, List.countP_append, List.countP_singleton]
      cases hc : a.strictEqNumber s.questions[s.currentQuestion].correct
      · simp only [Bool.false_eq_true, if_false]
        omega
      · simp only [if_true]
        omega
  · intro st0 qc random now t evs s1 hno hget
    obtain ⟨s0, hs0, _, hscore0, _, htime0, _⟩ := get_startQuiz_self bank st0 qc random now
    obtain ⟨s, hs, _, ht, _, hsc, _⟩ :=
      run_session bank (generateSessionId (random 0)) evs _ hno s1 hget
    rw [hs0] at hs
    cases hs
    rw [hscore0, Nat.zero_add] at hsc
    rw [getResults_some t hget, hsc, ht, htime0]

/-- Witness of C5: three questions of the built-in bank, answered right, wrong,
right; `getResults` reports score 2, the number of `correct == true` responses. -/
theorem score_counts_correct_answers_witness :
    (getResults
        (run questions (startQuiz questions Store.empty (some 3) (fun _ => half) 1000).1
          demoAnswers).1 (generateSessionId half) 9000).2
        = Response.results
            (correctAnswers (generateSessionId half) demoAnswers
              (run questions (startQuiz questions Store.empty (some 3) (fun _ => half) 1000).1
                demoAnswers).2)
            demoFinalSession.questions.length
            (percentage
              (correctAnswers (generateSessionId half) demoAnswers
                (run questions (startQuiz questions Store.empty (some 3) (fun _ => half) 1000).1
                  demoAnswers).2)
              demoFinalSession.questions.length)
            (timeTaken 9000 1000) demoFinalSession.answers
      ∧ correctAnswers (generateSessionId half) demoAnswers
          (run questions (startQuiz questions Store.empty (some 3) (fun _ => half) 1000).1
            demoAnswers).2 = 2 :=
  ⟨(score_counts_correct_answers questions).2 Store.empty (some 3) (fun _ => half) 1000 9000
      demoAnswers demoFinalSession (by decide) (by decide),
    by decide⟩

/-- C6, evaluation at the failing input: a bank of 40 questions, a quiz of 40
questions, 23 correct answers.  The session has score 23 of 40, `getResults`
reports percentage 57, while `100 * 23 / 40 = 57.5` rounds (halves up) to 58.  The
binary64 quotient `23 / 40` is slightly below `0.575`, and its product with 100 is
`8092405580431359 / 2 ^ 47 = 57.49999999999999...`. -/
theorem getResults_percentage_23_of_40 :
    ((run bank40 Store.empty quiz40).1.get "i").map
        (fun s => (s.score, s.questions.length)) = some (23, 40)
      ∧ (∃ (t : Int) (log : List AnswerRecord),
          (getResults (run bank40 Store.empty quiz40).1 "i" 5000).2
            = Response.results 23 40 (some 57) t log)
      ∧ exactPercentage 23 40 = 58
      ∧ roundBinary64 23 40 = (2589569785738035 * 2 ^ 5, 2 ^ 57)
      ∧ roundBinary64 (2589569785738035 * 2 ^ 5 * 100) (2 ^ 57)
          = (8092405580431359 * 2 ^ 62, 2 ^ 109) :=
  ⟨by decide, ⟨_, _, rfl⟩, by decide, by decide, by decide⟩

/-- C7: in every reachable store, every stored session has as many log entries as
its cursor says, and its cursor lies between 0 and the number of selected
questions. -/
theorem reachable_log_length_eq_cursor (bank : List Question) (st : Store)
    (hr : Reachable bank st) (sid : String) (s : Session) (h : st.get sid = some s) :
    s.answers.length = s.currentQuestion
      ∧ 0 ≤ s.currentQuestion ∧ s.currentQuestion ≤ s.questions.length := by
  refine reachable_invariant
    (fun s => s.answers.length = s.currentQuestion
      ∧ 0 ≤ s.currentQuestion ∧ s.currentQuestion ≤ s.questions.length)
    bank ?_ ?_ st hr sid s h
  · intro qs now
    simp
  · intro s a hlt hs
    simp only [Session.answered, List.length_append, List.length_singleton]
    omega

/-- Witness of C7: after `start-quiz` and one answer on the built-in bank, the
session `"i"` has one log entry, cursor 1 and three questions. -/
theorem reachable_log_length_eq_cursor_witness :
    (demoSession.answered demoSession.questions[0] (JsValue.number 1)).answers.length
        = (demoSession.answered demoSession.questions[0] (JsValue.number 1)).currentQuestion
      ∧ 0 ≤ (demoSession.answered demoSession.questions[0] (JsValue.number 1)).currentQuestion
      ∧ (demoSession.answered demoSession.questions[0] (JsValue.number 1)).currentQuestion
          ≤ (demoSession.answered demoSession.questions[0] (JsValue.number 1)).questions.length :=
  reachable_log_length_eq_cursor questions
    (run questions Store.empty
      [Event.startQuiz (some 3) (fun _ => half) 1000,
        Event.submitAnswer "i" (JsValue.number 1)]).1
    (reachable_run questions _ Store.empty Reachable.init) "i"
    (demoSession.answered demoSession.questions[0] (JsValue.number 1)) (by decide)

/-- C8, the claim as stated fails: on the session of `demoStore`, whose current
question has four options and correct index 1, the answer indices `-1`, `4` and a
missing `answerIndex` are not valid option indices, yet each is accepted with a
200 response `correct = false`, and the session afterwards has cursor 1 and one
log entry recording the submitted value. -/
theorem submitAnswer_accepts_invalid_index :
    demoStore.get "i" = some demoSession
      ∧ ¬ isValidAnswerIndex (JsValue.number (-1)) 4
      ∧ ¬ isValidAnswerIndex (JsValue.number 4) 4
      ∧ ¬ isValidAnswerIndex JsValue.undefined 4
      ∧ (submitAnswer demoStore "i" (JsValue.number (-1))).2
          = Response.answerResult false 1 none
      ∧ (submitAnswer demoStore "i" (JsValue.number 4)).2
          = Response.answerResult false 1 none
      ∧ (submitAnswer demoStore "i" JsValue.undefined).2
          = Response.answerResult false 1 none
      ∧ (submitAnswer demoStore "i" (JsValue.number (-1))).1.get "i"
          = some { demoSession with
                   currentQuestion := 1
                   answers :=
                     [{ question := "What is the largest planet in our solar system?",
                        userAnswer := JsValue.number (-1), correctAnswer := 1,
                        isCorrect := false }] } := by
  refine ⟨by decide, not_isValidAnswerIndex_neg_one 4, ?_, ?_, by decide, by decide,
    by decide, by decide⟩
  · rintro ⟨k, hlt, hk⟩
    injection hk with hk
    have : k = 4 := by exact_mod_cast hk.symm
    omega
  · rintro ⟨k, _, hk⟩
    cases hk

/-- C8 as amended: for an existing, not yet completed session whose current
question `q` has its correct index among its options, a submitted `answerIndex`
that is not a valid option index is not rejected: `submitAnswer` answers 200 with
`correct = false` and `correctAnswer = q.correct`, leaves the score unchanged,
appends one log entry recording the submitted value as incorrect, and advances the
cursor by one. -/
theorem submitAnswer_records_invalid_index_as_wrong (st : Store) (sid : String)
    (s : Session) (a : JsValue) (hget : st.get sid = some s)
    (hlt : s.currentQuestion < s.questions.length)
    (hq : 0 ≤ s.questions[s.currentQuestion].correct
      ∧ s.questions[s.currentQuestion].correct
          < (s.questions[s.currentQuestion].answers.length : Int))
    (hbad : ¬ isValidAnswerIndex a s.questions[s.currentQuestion].answers.length) :
    submitAnswer st sid a =
      (st.set sid
          { questions := s.questions
            currentQuestion := s.currentQuestion + 1
            score := s.score
            answers := s.answers ++
              [{ question := s.questions[s.currentQuestion].question
                 userAnswer := a
                 correctAnswer := s.questions[s.currentQuestion].correct
                 isCorrect := false }]
            startTime := s.startTime },
        Response.answerResult false s.questions[s.currentQuestion].correct
          (orNull s.questions[s.currentQuestion].explanation)) := by
  have hwrong : a.strictEqNumber s.questions[s.currentQuestion].correct = false := by
    cases hc : a.strictEqNumber s.questions[s.currentQuestion].correct with
    | false => rfl
    | true =>
      exfalso
      apply hbad
      cases a with
      | number x =>
        simp only [JsValue.strictEqNumber, decide_eq_true_eq] at hc
        refine ⟨s.questions[s.currentQuestion].correct.toNat, ?_, ?_⟩
        · omega
        · rw [hc]
          congr 1
          have h1 : ((s.questions[s.currentQuestion].correct.toNat : Int))
              = s.questions[s.currentQuestion].correct := Int.toNat_of_nonneg hq.1
          have h2 : ((s.questions[s.currentQuestion].correct.toNat : Int) : ℚ)
              = (s.questions[s.currentQuestion].correct : ℚ) := by rw [h1]
          rw [← h2]
          norm_cast
      | undefined => simp [JsValue.strictEqNumber] at hc
      | null => simp [JsValue.strictEqNumber] at hc
      | bool b => simp [JsValue.strictEqNumber] at hc
      | string t => simp [JsValue.strictEqNumber] at hc
      | structured t => simp [JsValue.strictEqNumber] at hc
  rw [submitAnswer_open a hget hlt, hwrong]
  simp [Session.answered, hwrong]

/-- Witness of the amended C8 on `demoStore` with `answerIndex = -1`. -/
theorem submitAnswer_records_invalid_index_as_wrong_witness :
    submitAnswer demoStore "i" (JsValue.number (-1)) =
      (demoStore.set "i"
          { questions := demoSession.questions
            currentQuestion := demoSession.currentQuestion + 1
            score := demoSession.score
            answers := demoSession.answers ++
              [{ question := demoSession.questions[demoSession.currentQuestion].question
                 userAnswer := JsValue.number (-1)
                 correctAnswer := demoSession.questions[demoSession.currentQuestion].correct
                 isCorrect := false }]
            startTime := demoSession.startTime },
        Response.answerResult false demoSession.questions[demoSession.currentQuestion].correct
          (orNull demoSession.questions[demoSession.currentQuestion].explanation)) :=
  submitAnswer_records_invalid_index_as_wrong demoStore "i" demoSession (JsValue.number (-1))
    (by decide) (by decide) (by decide) (not_isValidAnswerIndex_neg_one _)

/-- C9, evaluation at the failing input: the store holds session `"i"` with one
answer given (cursor 1, score 1).  A `start-quiz` request during which
`Math.random()` returns 0.5 again gets the id `"i"`, a key of the store before the
request, and the stored session is replaced by a new one (cursor 0, score 0, empty
log, start time 2000). -/
theorem startQuiz_replaces_session_on_id_collision :
    (submitAnswer demoStore "i" (JsValue.number 1)).1.get "i"
        = some { demoSession with
                 currentQuestion := 1
                 score := 1
                 answers :=
                   [{ question := "What is the largest planet in our solar system?",
                      userAnswer := JsValue.number 1, correctAnswer := 1,
                      isCorrect := true }] }
      ∧ (startQuiz questions (submitAnswer demoStore "i" (JsValue.number 1)).1 (some 3)
          (fun _ => half) 2000).2
          = Response.quizStarted "i" 3 "Quiz started successfully"
      ∧ (startQuiz questions (submitAnswer demoStore "i" (JsValue.number 1)).1 (some 3)
          (fun _ => half) 2000).1.get "i"
          = some { demoSession with startTime := 2000 } := by
  decide

/-- C10: the clean-up sweep at time `now` keeps exactly the entries whose
`startTime` is at least `now - 3 600 000`, in their order and unchanged, and removes
all others; a session older than that is found by `getQuestion`, `submitAnswer` and
`getResults` before the sweep (no 404) and answered with 404 `Session not found` by
all three after it. -/
theorem cleanUp_keeps_exactly_recent (st : Store) (now : Int) :
    (cleanUpOldSessions st now).entries
        = st.entries.filter (fun e => !decide (e.2.startTime < now - 3600000))
      ∧ (∀ sid : String, (cleanUpOldSessions st now).get sid =
          match st.get sid with
          | some s => if s.startTime < now - 3600000 then none else some s
          | none => none)
      ∧ ∀ (sid : String) (s : Session), st.get sid = some s →
          s.startTime < now - 3600000 →
          (getQuestion st sid).2.status ≠ 404
            ∧ (∀ a : JsValue, (submitAnswer st sid a).2.status ≠ 404)
            ∧ (∀ t : Int, (getResults st sid t).2.status ≠ 404)
            ∧ (getQuestion (cleanUpOldSessions st now) sid).2
                = Response.error 404 "Session not found"
            ∧ (∀ a : JsValue, (submitAnswer (cleanUpOldSessions st now) sid a).2
                = Response.error 404 "Session not found")
            ∧ (∀ t : Int, (getResults (cleanUpOldSessions st now) sid t).2
                = Response.error 404 "Session not found") := by
  refine ⟨entries_cleanUpOldSessions st now, get_cleanUpOldSessions st now, ?_⟩
  intro sid s hget hold
  have hgone : (cleanUpOldSessions st now).get sid = none := by
    rw [get_cleanUpOldSessions, hget]
    simp [hold]
  refine ⟨?_, ?_, ?_, ?_, ?_, ?_⟩
  · by_cases hc : s.questions.length ≤ s.currentQuestion
    · rw [getQuestion_done hget hc]; simp [Response.status]
    · rw [getQuestion_open hget (Nat.lt_of_not_le hc)]; simp [Response.status]
  · intro a
    by_cases hc : s.questions.length ≤ s.currentQuestion
    · rw [submitAnswer_done a hget hc]; simp [Response.status]
    · rw [submitAnswer_open a hget (Nat.lt_of_not_le hc)]; simp [Response.status]
  · intro t
    rw [getResults_some t hget]; simp [Response.status]
  · rw [getQuestion_none hgone]
  · intro a
    rw [submitAnswer_none a hgone]
  · intro t
    rw [getResults_none t hgone]

/-- Witness of C10: the session of `demoStore` started at time 1000; a sweep at
time 3 601 001 (cutoff 1001) evicts it. -/
theorem cleanUp_keeps_exactly_recent_witness :
    (getQuestion demoStore "i").2.status ≠ 404
      ∧ (getQuestion (cleanUpOldSessions demoStore 3601001) "i").2
          = Response.error 404 "Session not found"
      ∧ (getResults (cleanUpOldSessions demoStore 3601001) "i" 3601002).2
          = Response.error 404 "Session not found" :=
  have h := (cleanUp_keeps_exactly_recent demoStore 3601001).2.2 "i" demoSession
    (by decide) (by decide)
  ⟨h.1, h.2.2.2.1, h.2.2.2.2.2 3601002⟩

/-- C11: selection is without replacement.  For every input array and every
sequence of random draws, `shuffleArray` returns a permutation of its input (same
length, every element with the same multiplicity), and when it returns its
argument `array` holds what it held at the call.  Hence the selected questions of
a new session, and of every session in every reachable store, are a prefix of a
permutation of the bank, that is, the bank entries at pairwise distinct bank
positions. -/
theorem shuffleArray_selects_without_replacement :
    (∀ (α : Type) (random : Nat → UnitDouble) (array : List α),
        (shuffleArray random array).Perm array
          ∧ (shuffleArray random array).length = array.length
          ∧ shuffleArrayVars random array
              = { array := array, shuffled := shuffleArray random array })
      ∧ (∀ (α : Type) [DecidableEq α] (random : Nat → UnitDouble) (array : List α) (x : α),
          (shuffleArray random array).count x = array.count x)
      ∧ (∀ (bank : List Question) (st : Store) (qc : Option Int) (random : Nat → UnitDouble)
          (now : Int),
          ∃ (s : Session) (shuffled : List Question) (positions : List Nat),
            (startQuiz bank st qc random now).1.get (generateSessionId (random 0)) = some s
              ∧ shuffled.Perm bank ∧ s.questions <+: shuffled
              ∧ positions.Nodup ∧ (∀ p ∈ positions, p < bank.length)
              ∧ positions.map (fun p => bank[p]?) = s.questions.map some)
      ∧ ∀ (bank : List Question) (st : Store), Reachable bank st →
          ∀ (sid : String) (s : Session), st.get sid = some s →
          ∃ (shuffled : List Question) (positions : List Nat),
            shuffled.Perm bank ∧ s.questions <+: shuffled
              ∧ positions.Nodup ∧ (∀ p ∈ positions, p < bank.length)
              ∧ positions.map (fun p => bank[p]?) = s.questions.map some := by
  refine ⟨?_, ?_, ?_, ?_⟩
  · intro α random array
    exact ⟨shuffleArray_perm random array, length_shuffleArray random array,
      shuffleArrayVars_eq random array⟩
  · intro α _ random array x
    exact (shuffleArray_perm random array).count_eq x
  · intro bank st qc random now
    obtain ⟨shuffled, positions, h⟩ :=
      selection_positions bank (fun k => random (k + 1))
        (min (qc.getD 10) (bank.length : Int))
    exact ⟨_, shuffled, positions, Store.get_set_self _ _ _, h⟩
  · intro bank st hr sid s h
    exact reachable_questions bank
      (fun qs => ∃ (shuffled : List Question) (positions : List Nat),
        shuffled.Perm bank ∧ qs <+: shuffled
          ∧ positions.Nodup ∧ (∀ p ∈ positions, p < bank.length)
          ∧ positions.map (fun p => bank[p]?) = qs.map some)
      (fun random e => selection_positions bank random e) st hr sid s h

/-- Witness of C11: the three questions of the session in `demoStore` are a prefix
of a permutation of the built-in bank, read at pairwise distinct positions. -/
theorem shuffleArray_selects_without_replacement_witness :
    ∃ (shuffled : List Question) (positions : List Nat),
      shuffled.Perm questions ∧ demoSession.questions <+: shuffled
        ∧ positions.Nodup ∧ (∀ p ∈ positions, p < questions.length)
        ∧ positions.map (fun p => questions[p]?) = demoSession.questions.map some :=
  shuffleArray_selects_without_replacement.2.2.2 questions demoStore
    (Reachable.step (Event.startQuiz (some 3) (fun _ => half) 1000) Reachable.init)
    "i" demoSession (by decide)

/-- C12: for an array of `n` pairwise distinct elements, when the index `j` drawn
at loop index `i` (from `n - 1` down to 1) ranges over all of `0..i`, the map from
draw sequences to output arrays is a bijection onto the permutations of the input:
every draw sequence gives a permutation, every permutation is the output of
exactly one draw sequence, there are `n!` draw sequences, and the outputs of all
of them list every permutation once.  The array `shuffleArray` returns is the
output for the draw sequence of its random indices. -/
theorem shuffle_draws_bijective {α : Type} (array : List α) (hnd : array.Nodup) :
    (∀ draws : List Nat, ValidDraws (array.length - 1) draws →
        (shuffleDraws (array.length - 1) draws array).Perm array)
      ∧ (∀ l : List α, l.Perm array →
          ∃! draws, ValidDraws (array.length - 1) draws
            ∧ shuffleDraws (array.length - 1) draws array = l)
      ∧ (∀ draws : List Nat,
          draws ∈ allDraws (array.length - 1) ↔ ValidDraws (array.length - 1) draws)
      ∧ (allDraws (array.length - 1)).Nodup
      ∧ (allDraws (array.length - 1)).length = array.length.factorial
      ∧ ((allDraws (array.length - 1)).map
          (fun draws => shuffleDraws (array.length - 1) draws array)).Perm array.permutations
      ∧ ∀ random : Nat → UnitDouble,
          ValidDraws (array.length - 1) (randomDraws random (array.length - 1) 0)
            ∧ shuffleArray random array
                = shuffleDraws (array.length - 1)
                    (randomDraws random (array.length - 1) 0) array := by
  refine ⟨fun draws _ => shuffleDraws_perm _ draws array,
    fun l hperm => shuffleDraws_of_perm array l hnd hperm,
    mem_allDraws _, nodup_allDraws _, ?_, outputs_perm_permutations array hnd, ?_⟩
  · rw [length_allDraws]
    cases array with
    | nil => rfl
    | cons c t => simp
  · intro random
    exact ⟨validDraws_randomDraws random _ 0, shuffleLoop_eq_shuffleDraws random _ 0 array⟩

/-- Witness of C12: for the array `[1, 2, 3]` the permutation `[3, 1, 2]` is the
output of exactly one draw sequence, and there are `3! = 6` draw sequences. -/
theorem shuffle_draws_bijective_witness :
    (∃! draws, ValidDraws 2 draws ∧ shuffleDraws 2 draws [1, 2, 3] = [3, 1, 2])
      ∧ (allDraws 2).length = 6 :=
  have h := shuffle_draws_bijective [1, 2, 3] (by decide)
  ⟨h.2.1 [3, 1, 2] (by decide), h.2.2.2.2.1⟩

/-- C13: for every store and every `getQuestion`, `submitAnswer` or `getResults`
request, the selected questions and the start time of every stored session are the
same after the request as before, and every session other than the addressed one
is unchanged.  `getQuestion`, `getResults` and a `submitAnswer` that is not
answered with 200 leave the whole store unchanged; a `submitAnswer` answered with
200 changes only the addressed session: cursor plus 1, score (plus 1 when the
answer is correct) and one entry appended to the answer log. -/
theorem requests_change_only_answered_session (st : Store) (sid : String) (a : JsValue)
    (now : Int) :
    (getQuestion st sid).1 = st
      ∧ (getResults st sid now).1 = st
      ∧ ((submitAnswer st sid a).2.status ≠ 200 → (submitAnswer st sid a).1 = st)
      ∧ (∀ sid' : String, sid' ≠ sid → (submitAnswer st sid a).1.get sid' = st.get sid')
      ∧ (∀ sid' : String,
          ((submitAnswer st sid a).1.get sid').map (fun s => (s.questions, s.startTime))
            = (st.get sid').map (fun s => (s.questions, s.startTime)))
      ∧ ((submitAnswer st sid a).2.status = 200 →
          ∃ (s : Session) (hlt : s.currentQuestion < s.questions.length),
            st.get sid = some s
              ∧ (submitAnswer st sid a).1 =
                  st.set sid
                    { questions := s.questions
                      currentQuestion := s.currentQuestion + 1
                      score :=
                        if a.strictEqNumber s.questions[s.currentQuestion].correct
                        then s.score + 1 else s.score
                      answers := s.answers ++
                        [{ question := s.questions[s.currentQuestion].question
                           userAnswer := a
                           correctAnswer := s.questions[s.currentQuestion].correct
                           isCorrect :=
                             a.strictEqNumber s.questions[s.currentQuestion].correct }]
                      startTime := s.startTime }) := by
  refine ⟨getQuestion_fst st sid, getResults_fst st sid now, ?_⟩
  cases hg : st.get sid with
  | none =>
    rw [submitAnswer_none a hg]
    refine ⟨fun _ => rfl, fun _ _ => rfl, fun _ => rfl, ?_⟩
    intro h
    simp [Response.status] at h
  | some s =>
    by_cases hc : s.questions.length ≤ s.currentQuestion
    · rw [submitAnswer_done a hg hc]
      refine ⟨fun _ => rfl, fun _ _ => rfl, fun _ => rfl, ?_⟩
      intro h
      simp [Response.status] at h
    · have hlt : s.currentQuestion < s.questions.length := Nat.lt_of_not_le hc
      rw [submitAnswer_open a hg hlt]
      refine ⟨?_, ?_, ?_, ?_⟩
      · intro h
        simp [Response.status] at h
      · intro sid' hne
        exact Store.get_set_ne st sid sid' _ hne
      · intro sid'
        by_cases hk : sid' = sid
        · subst hk
          rw [Store.get_set_self, hg]
          rfl
        · rw [Store.get_set_ne st sid sid' _ hk]
      · intro _
        exact ⟨s, hlt, rfl, rfl⟩

/-- Witness of C13 on `demoStore`: an answer on the unknown id `"zz"` is refused and
leaves the store as it was; an answer on `"i"` is accepted and replaces that session
by the advanced one. -/
theorem requests_change_only_answered_session_witness :
    (submitAnswer demoStore "zz" (JsValue.number 1)).1 = demoStore
      ∧ ∃ (s : Session) (hlt : s.currentQuestion < s.questions.length),
          demoStore.get "i" = some s
            ∧ (submitAnswer demoStore "i" (JsValue.number 1)).1 =
                demoStore.set "i"
                  { questions := s.questions
                    currentQuestion := s.currentQuestion + 1
                    score :=
                      if (JsValue.number 1).strictEqNumber s.questions[s.currentQuestion].correct
                      then s.score + 1 else s.score
                    answers := s.answers ++
                      [{ question := s.questions[s.currentQuestion].question
                         userAnswer := JsValue.number 1
                         correctAnswer := s.questions[s.currentQuestion].correct
                         isCorrect :=
                           (JsValue.number 1).strictEqNumber
                             s.questions[s.currentQuestion].correct }]
                    startTime := s.startTime } :=
  ⟨(requests_change_only_answered_session demoStore "zz" (JsValue.number 1) 0).2.2.1
      (by decide),
    (requests_change_only_answered_session demoStore "i" (JsValue.number 1) 0).2.2.2.2.2
      (by decide)⟩

end QuizServer
